import Mathlib

/-!
# History storage of the MySQL plugin (`common/persistence/sql/sqlplugin/mysql/events.go`)

A shallow embedding of the seven operations of `events.go` over an explicit
model of the sharded relational store, followed by the test
`TestReplicationMessageDLQ` of `host/ndc/replication_integration_test.go` over
a model of the DLQ and of the replication that fills it.

* A `DB` is a number of storage shards, each holding a `history_node` and a
  `history_tree` table (a list of stored records, in insertion order).
* Every SQL constant of `events.go` is embedded as a function on one table,
  with the statement's positional parameters as arguments in the order the
  statement binds them.
* Every Go method is embedded as the function that computes the storage shard
  and hands the statement to that shard, as the method body does.
* `int64` values are integers, and the one place where `int64` arithmetic can
  overflow (`*row.TxnID *= -1`) wraps explicitly.
* The one error a statement ends with in the model is the violation of a key
  by an insert; failures of the connection and cancelled contexts are not
  modelled.
-/

namespace Cadence

/-! ## Data model -/

/-- Type `serialization.UUID`: a 16-byte identifier, read as the unsigned big-endian
number it spells, so that the numeric order is the bytewise order in which the
store compares the `tree_id` and `branch_id` columns. -/
abbrev UUID := Nat

/-- Wrap-around of a mathematical integer into the `int64` range. -/
def wrapInt64 (x : Int) : Int :=
  (x + 9223372036854775808) % 18446744073709551616 - 9223372036854775808

/-- The smallest `int64`. -/
def minInt64 : Int := -9223372036854775808

/-- The largest `int64`. -/
def maxInt64 : Int := 9223372036854775807

/-- The value is representable as an `int64`. -/
def IsInt64 (x : Int) : Prop := minInt64 ≤ x ∧ x ≤ maxInt64

instance (x : Int) : Decidable (IsInt64 x) := by unfold IsInt64; infer_instance

/-- The Go statement `*row.TxnID *= -1` on the `int64` behind the pointer. -/
def negateTxnID (t : Int) : Int := wrapInt64 (t * -1)

/-- Type `sqlplugin.HistoryNodeRow`, also the shape of a stored `history_node`
record. `TxnID` is the `int64` the row's `*int64` points to. -/
structure HistoryNodeRow where
  ShardID : Int
  TreeID : UUID
  BranchID : UUID
  NodeID : Int
  TxnID : Int
  Data : List Nat
  DataEncoding : String
deriving DecidableEq, Repr

/-- Type `sqlplugin.HistoryNodeFilter`; `MinNodeID` and `MaxNodeID` are the values
behind the filter's pointers. `PageSize` is the operand of `LIMIT`, which the
store accepts only when it is not negative. -/
structure HistoryNodeFilter where
  ShardID : Int
  TreeID : UUID
  BranchID : UUID
  MinNodeID : Int
  MaxNodeID : Int
  PageSize : Nat
deriving DecidableEq, Repr

/-- Type `sqlplugin.HistoryTreeRow`, also the shape of a stored `history_tree`
record. -/
structure HistoryTreeRow where
  ShardID : Int
  TreeID : UUID
  BranchID : UUID
  Data : List Nat
  DataEncoding : String
deriving DecidableEq, Repr

/-- Type `sqlplugin.HistoryTreeFilter`; `BranchID` and `PageSize` are the values
behind the filter's pointers. -/
structure HistoryTreeFilter where
  ShardID : Int
  TreeID : UUID
  BranchID : UUID
  PageSize : Nat
deriving DecidableEq, Repr

/-- One storage shard: its two tables, each in insertion order. -/
structure DBShard where
  history_node : List HistoryNodeRow
  history_tree : List HistoryTreeRow
deriving DecidableEq, Repr

/-- The receiver `mdb *DB`: the driver's storage shards. -/
structure DB where
  totalNumDBShards : Nat
  shards : Nat → DBShard

/-- The error a statement can end with in this model: the key of the inserted
record is already taken. -/
inductive SqlError where
  | duplicateEntry
deriving DecidableEq, Repr

/-- What `ExecContext`/`NamedExecContext` hand back, `(sql.Result, error)` as the
number of affected rows or the error, together with the store afterwards. -/
structure ExecOutcome where
  result : Except SqlError Nat
  db : DB

/-- A store without any record. -/
def DB.empty (n : Nat) : DB := ⟨n, fun _ => ⟨[], []⟩⟩

/-- Method `mdb.GetTotalNumDBShards()`. -/
def DB.GetTotalNumDBShards (mdb : DB) : Nat := mdb.totalNumDBShards

/-- The store with storage shard `i` replaced. -/
def DB.setShard (mdb : DB) (i : Nat) (s : DBShard) : DB :=
  { mdb with shards := fun j => if j = i then s else mdb.shards j }

/-- Modelled from the spec: `sqlplugin.GetDBShardIDFromTreeID` is not among the
sources; the spec gives the storage shard as `f(treeID) mod totalStorageShards`.
The hash `f` is a parameter of the whole development. -/
def GetDBShardIDFromTreeID (hash : UUID → Nat) (treeID : UUID) (numDBShards : Nat) : Nat :=
  hash treeID % numDBShards

/-! ## The statements on `history_node` -/

/-- Clause `ORDER BY shard_id, tree_id, branch_id, node_id, txn_id` (ascending), as a
comparison of two stored records. -/
def nodeOrderLe (a b : HistoryNodeRow) : Prop :=
  a.ShardID < b.ShardID ∨ (a.ShardID = b.ShardID ∧
    (a.TreeID < b.TreeID ∨ (a.TreeID = b.TreeID ∧
      (a.BranchID < b.BranchID ∨ (a.BranchID = b.BranchID ∧
        (a.NodeID < b.NodeID ∨ (a.NodeID = b.NodeID ∧ a.TxnID ≤ b.TxnID)))))))

instance : DecidableRel nodeOrderLe := fun a b => by unfold nodeOrderLe; infer_instance

/-- Modelled from the spec: the schema of `history_node` is not among the
sources; the spec has an append fail with a constraint violation when the
record's `(shardID, treeID, branchID, nodeID, txnID)` already exists. Two
records agree on that key. -/
def sameNodeKey (a b : HistoryNodeRow) : Bool :=
  decide (a.ShardID = b.ShardID) && decide (a.TreeID = b.TreeID) &&
    decide (a.BranchID = b.BranchID) && decide (a.NodeID = b.NodeID) &&
    decide (a.TxnID = b.TxnID)

/-- Statement `addHistoryNodesQuery`: `INSERT INTO history_node (...) VALUES (...)`
with the fields of the row bound by name; it fails when the key of the row is
taken (`sameNodeKey`), and appends the record otherwise. -/
def addHistoryNodesQuery (row : HistoryNodeRow) (t : List HistoryNodeRow) :
    Except SqlError (List HistoryNodeRow × Nat) :=
  if t.any (fun r => sameNodeKey r row) then .error .duplicateEntry
  else .ok (t ++ [row], 1)

/-- The `WHERE` clause of `getHistoryNodesQuery`:
`shard_id = ? AND tree_id = ? AND branch_id = ? AND node_id >= ? and node_id < ?`. -/
def getHistoryNodesWhere (shardID : Int) (treeID branchID : UUID) (minNodeID maxNodeID : Int)
    (r : HistoryNodeRow) : Bool :=
  decide (r.ShardID = shardID) && decide (r.TreeID = treeID) &&
    decide (r.BranchID = branchID) && decide (r.NodeID ≥ minNodeID) &&
    decide (r.NodeID < maxNodeID)

/-- The select list `node_id, txn_id, data, data_encoding` scanned into a
`HistoryNodeRow`: the fields of the other columns keep their zero value. -/
def scanHistoryNode (r : HistoryNodeRow) : HistoryNodeRow :=
  { ShardID := 0, TreeID := 0, BranchID := 0, NodeID := r.NodeID, TxnID := r.TxnID,
    Data := r.Data, DataEncoding := r.DataEncoding }

/-- Statement `getHistoryNodesQuery`: `SELECT node_id, txn_id, data, data_encoding FROM
history_node WHERE ... ORDER BY shard_id, tree_id, branch_id, node_id, txn_id
LIMIT ?`, the six parameters in binding order. -/
def getHistoryNodesQuery (shardID : Int) (treeID branchID : UUID) (minNodeID maxNodeID : Int)
    (limit : Nat) (t : List HistoryNodeRow) : List HistoryNodeRow :=
  (((t.filter (getHistoryNodesWhere shardID treeID branchID minNodeID maxNodeID)).insertionSort
    nodeOrderLe).take limit).map scanHistoryNode

/-- The `WHERE` clause of `deleteHistoryNodesQuery`:
`shard_id = ? AND tree_id = ? AND branch_id = ? AND node_id >= ?`. -/
def deleteHistoryNodesWhere (shardID : Int) (treeID branchID : UUID) (minNodeID : Int)
    (r : HistoryNodeRow) : Bool :=
  decide (r.ShardID = shardID) && decide (r.TreeID = treeID) &&
    decide (r.BranchID = branchID) && decide (r.NodeID ≥ minNodeID)

/-- The records `deleteHistoryNodesQuery` removes: the first `limit` of the
records the `WHERE` clause selects, in the `ORDER BY` order. -/
def deleteHistoryNodesVictims (shardID : Int) (treeID branchID : UUID) (minNodeID : Int)
    (limit : Nat) (t : List HistoryNodeRow) : List HistoryNodeRow :=
  ((t.filter (deleteHistoryNodesWhere shardID treeID branchID minNodeID)).insertionSort
    nodeOrderLe).take limit

/-- Statement `deleteHistoryNodesQuery`: `DELETE FROM history_node WHERE ... ORDER BY
shard_id, tree_id, branch_id, node_id, txn_id LIMIT ?`: the table afterwards
and the number of affected rows. -/
def deleteHistoryNodesQuery (shardID : Int) (treeID branchID : UUID) (minNodeID : Int)
    (limit : Nat) (t : List HistoryNodeRow) : List HistoryNodeRow × Nat :=
  (t.diff (deleteHistoryNodesVictims shardID treeID branchID minNodeID limit t),
    (deleteHistoryNodesVictims shardID treeID branchID minNodeID limit t).length)

/-! ## The statements on `history_tree` -/

/-- Clause `ORDER BY shard_id, tree_id, branch_id` (ascending). -/
def treeOrderLe (a b : HistoryTreeRow) : Prop :=
  a.ShardID < b.ShardID ∨ (a.ShardID = b.ShardID ∧
    (a.TreeID < b.TreeID ∨ (a.TreeID = b.TreeID ∧ a.BranchID ≤ b.BranchID)))

instance : DecidableRel treeOrderLe := fun a b => by unfold treeOrderLe; infer_instance

/-- Modelled from the spec: the schema of `history_tree` is not among the
sources; the spec has the creation of a branch fail when its
`(shardID, treeID, branchID)` already exists. Two records agree on that key. -/
def sameTreeKey (a b : HistoryTreeRow) : Bool :=
  decide (a.ShardID = b.ShardID) && decide (a.TreeID = b.TreeID) &&
    decide (a.BranchID = b.BranchID)

/-- Statement `addHistoryTreeQuery`: `INSERT INTO history_tree (...) VALUES (...)`;
it fails when the key of the row is taken (`sameTreeKey`), and appends the
record otherwise. -/
def addHistoryTreeQuery (row : HistoryTreeRow) (t : List HistoryTreeRow) :
    Except SqlError (List HistoryTreeRow × Nat) :=
  if t.any (fun r => sameTreeKey r row) then .error .duplicateEntry
  else .ok (t ++ [row], 1)

/-- The select list `branch_id, data, data_encoding` scanned into a
`HistoryTreeRow`: the fields of the other columns keep their zero value. -/
def scanHistoryTree (r : HistoryTreeRow) : HistoryTreeRow :=
  { ShardID := 0, TreeID := 0, BranchID := r.BranchID, Data := r.Data,
    DataEncoding := r.DataEncoding }

/-- Statement `getHistoryTreeQuery`: `SELECT branch_id, data, data_encoding FROM
history_tree WHERE shard_id = ? AND tree_id = ?`. -/
def getHistoryTreeQuery (shardID : Int) (treeID : UUID) (t : List HistoryTreeRow) :
    List HistoryTreeRow :=
  (t.filter (fun r => decide (r.ShardID = shardID) && decide (r.TreeID = treeID))).map
    scanHistoryTree

/-- The `WHERE` clause of `deleteHistoryTreeQuery`:
`shard_id = ? AND tree_id = ? AND branch_id = ?`. -/
def deleteHistoryTreeWhere (shardID : Int) (treeID branchID : UUID) (r : HistoryTreeRow) :
    Bool :=
  decide (r.ShardID = shardID) && decide (r.TreeID = treeID) && decide (r.BranchID = branchID)

/-- Statement `deleteHistoryTreeQuery`: `DELETE FROM history_tree WHERE shard_id = ? AND
tree_id = ? AND branch_id = ?`: the table afterwards and the number of
affected rows. -/
def deleteHistoryTreeQuery (shardID : Int) (treeID branchID : UUID) (t : List HistoryTreeRow) :
    List HistoryTreeRow × Nat :=
  (t.filter (fun r => !deleteHistoryTreeWhere shardID treeID branchID r),
    (t.filter (deleteHistoryTreeWhere shardID treeID branchID)).length)

/-- The `WHERE` clause of `getAllHistoryTreeQuery`, its six parameters in
binding order: `(shard_id = ? AND tree_id = ? AND branch_id > ?) OR
(shard_id = ? AND tree_id > ?) OR (shard_id > ?)`. -/
def getAllHistoryTreeWhere (p1 : Int) (p2 p3 : UUID) (p4 : Int) (p5 : UUID) (p6 : Int)
    (r : HistoryTreeRow) : Bool :=
  (decide (r.ShardID = p1) && decide (r.TreeID = p2) && decide (r.BranchID > p3)) ||
    (decide (r.ShardID = p4) && decide (r.TreeID > p5)) || decide (r.ShardID > p6)

/-- Statement `getAllHistoryTreeQuery`: `SELECT shard_id, tree_id, branch_id, data,
data_encoding FROM history_tree WHERE ... ORDER BY shard_id, tree_id, branch_id
LIMIT ?`. -/
def getAllHistoryTreeQuery (p1 : Int) (p2 p3 : UUID) (p4 : Int) (p5 : UUID) (p6 : Int)
    (limit : Nat) (t : List HistoryTreeRow) : List HistoryTreeRow :=
  ((t.filter (getAllHistoryTreeWhere p1 p2 p3 p4 p5 p6)).insertionSort treeOrderLe).take limit

/-! ## The methods of `*DB` -/

section Methods

variable (hash : UUID → Nat)

/-- Method `InsertIntoHistoryNode`: negates the `int64` behind `row.TxnID` in place,
computes the storage shard from `row.TreeID` and executes
`addHistoryNodesQuery` there with the (now negated) row. The first component
is the caller's row as it reads after the call: `TxnID` is a pointer, so the
negation is visible through it. -/
def InsertIntoHistoryNode (mdb : DB) (row : HistoryNodeRow) : HistoryNodeRow × ExecOutcome :=
  let row1 : HistoryNodeRow := { row with TxnID := negateTxnID row.TxnID }
  let dbShardID := GetDBShardIDFromTreeID hash row1.TreeID mdb.GetTotalNumDBShards
  match addHistoryNodesQuery row1 (mdb.shards dbShardID).history_node with
  | .error e => (row1, ⟨.error e, mdb⟩)
  | .ok (t, n) =>
    (row1, ⟨.ok n, mdb.setShard dbShardID { mdb.shards dbShardID with history_node := t }⟩)

/-- Method `SelectFromHistoryNode`: runs `getHistoryNodesQuery` on the storage shard
of `filter.TreeID` and negates the `TxnID` of every row read. -/
def SelectFromHistoryNode (mdb : DB) (filter : HistoryNodeFilter) : List HistoryNodeRow :=
  let dbShardID := GetDBShardIDFromTreeID hash filter.TreeID mdb.GetTotalNumDBShards
  let rows := getHistoryNodesQuery filter.ShardID filter.TreeID filter.BranchID
    filter.MinNodeID filter.MaxNodeID filter.PageSize (mdb.shards dbShardID).history_node
  rows.map (fun row => { row with TxnID := negateTxnID row.TxnID })

/-- Method `DeleteFromHistoryNode`: runs `deleteHistoryNodesQuery` on the storage
shard of `filter.TreeID`. -/
def DeleteFromHistoryNode (mdb : DB) (filter : HistoryNodeFilter) : ExecOutcome :=
  let dbShardID := GetDBShardIDFromTreeID hash filter.TreeID mdb.GetTotalNumDBShards
  let r := deleteHistoryNodesQuery filter.ShardID filter.TreeID filter.BranchID
    filter.MinNodeID filter.PageSize (mdb.shards dbShardID).history_node
  ⟨.ok r.2, mdb.setShard dbShardID { mdb.shards dbShardID with history_node := r.1 }⟩

/-- Method `InsertIntoHistoryTree`: runs `addHistoryTreeQuery` on the storage shard
of `row.TreeID`. -/
def InsertIntoHistoryTree (mdb : DB) (row : HistoryTreeRow) : ExecOutcome :=
  let dbShardID := GetDBShardIDFromTreeID hash row.TreeID mdb.GetTotalNumDBShards
  match addHistoryTreeQuery row (mdb.shards dbShardID).history_tree with
  | .error e => ⟨.error e, mdb⟩
  | .ok (t, n) =>
    ⟨.ok n, mdb.setShard dbShardID { mdb.shards dbShardID with history_tree := t }⟩

/-- Method `SelectFromHistoryTree`: runs `getHistoryTreeQuery` on the storage shard
of `filter.TreeID`. -/
def SelectFromHistoryTree (mdb : DB) (filter : HistoryTreeFilter) : List HistoryTreeRow :=
  let dbShardID := GetDBShardIDFromTreeID hash filter.TreeID mdb.GetTotalNumDBShards
  getHistoryTreeQuery filter.ShardID filter.TreeID (mdb.shards dbShardID).history_tree

/-- Method `DeleteFromHistoryTree`: runs `deleteHistoryTreeQuery` on the storage
shard of `filter.TreeID`. -/
def DeleteFromHistoryTree (mdb : DB) (filter : HistoryTreeFilter) : ExecOutcome :=
  let dbShardID := GetDBShardIDFromTreeID hash filter.TreeID mdb.GetTotalNumDBShards
  let r := deleteHistoryTreeQuery filter.ShardID filter.TreeID filter.BranchID
    (mdb.shards dbShardID).history_tree
  ⟨.ok r.2, mdb.setShard dbShardID { mdb.shards dbShardID with history_tree := r.1 }⟩

/-- Method `GetAllHistoryTreeBranches`: runs `getAllHistoryTreeQuery` on the storage
shard of `filter.TreeID`, binding `ShardID, TreeID, BranchID, ShardID, TreeID,
ShardID, PageSize`. -/
def GetAllHistoryTreeBranches (mdb : DB) (filter : HistoryTreeFilter) : List HistoryTreeRow :=
  let dbShardID := GetDBShardIDFromTreeID hash filter.TreeID mdb.GetTotalNumDBShards
  getAllHistoryTreeQuery filter.ShardID filter.TreeID filter.BranchID filter.ShardID
    filter.TreeID filter.ShardID filter.PageSize (mdb.shards dbShardID).history_tree

end Methods

/-! ## Notions the statements use -/

/-- The stored records a node filter selects on the storage shard of its tree. -/
def matchingNodes (hash : UUID → Nat) (mdb : DB) (filter : HistoryNodeFilter) :
    List HistoryNodeRow :=
  (mdb.shards (GetDBShardIDFromTreeID hash filter.TreeID mdb.GetTotalNumDBShards)).history_node.filter
    (getHistoryNodesWhere filter.ShardID filter.TreeID filter.BranchID filter.MinNodeID
      filter.MaxNodeID)

/-- Every stored record sits on the storage shard of its tree. -/
def WellRouted (hash : UUID → Nat) (mdb : DB) : Prop :=
  ∀ i, (∀ r ∈ (mdb.shards i).history_node,
      GetDBShardIDFromTreeID hash r.TreeID mdb.GetTotalNumDBShards = i) ∧
    (∀ r ∈ (mdb.shards i).history_tree,
      GetDBShardIDFromTreeID hash r.TreeID mdb.GetTotalNumDBShards = i)

/-- The executing operation `op` works on storage shard `d` alone: it leaves
the number of shards and every other shard as they are, and its result and
what it makes of shard `d` are decided by the content of shard `d`. -/
def IssuedTo (d : Nat) (op : DB → ExecOutcome) (mdb : DB) : Prop :=
  (op mdb).db.totalNumDBShards = mdb.totalNumDBShards ∧
  (∀ i, i ≠ d → (op mdb).db.shards i = mdb.shards i) ∧
  (∀ mdb2 : DB, mdb2.totalNumDBShards = mdb.totalNumDBShards → mdb2.shards d = mdb.shards d →
    (op mdb2).result = (op mdb).result ∧ (op mdb2).db.shards d = (op mdb).db.shards d)

/-- The reading operation `q` reads storage shard `d` alone. -/
def ReadFrom {α : Type} (d : Nat) (q : DB → List α) (mdb : DB) : Prop :=
  ∀ mdb2 : DB, mdb2.totalNumDBShards = mdb.totalNumDBShards → mdb2.shards d = mdb.shards d →
    q mdb2 = q mdb

/-- The row a caller reads for the stored record `s`: the selected columns,
with the token negated back. -/
def readBack (s : HistoryNodeRow) : HistoryNodeRow :=
  { ShardID := 0, TreeID := 0, BranchID := 0, NodeID := s.NodeID, TxnID := negateTxnID s.TxnID,
    Data := s.Data, DataEncoding := s.DataEncoding }

/-- A store of `n` shards after appending the given rows, one after the other,
to an empty store (failed inserts leave the store as it is). -/
def storeOfNodes (hash : UUID → Nat) (n : Nat) (rows : List HistoryNodeRow) : DB :=
  rows.foldl (fun m row => (InsertIntoHistoryNode hash m row).2.db) (DB.empty n)

/-- The ordering key `(shardID, treeID, branchID)` of a branch record, in the
lexicographic order of triples. -/
def treeKey (shardID : Int) (treeID branchID : UUID) : Int ×ₗ (Nat ×ₗ Nat) :=
  toLex (shardID, toLex (treeID, branchID))

/-- A store of `n` shards after creating the given branches, one after the
other, in an empty store (failed inserts leave the store as it is). -/
def storeOfTrees (hash : UUID → Nat) (n : Nat) (rows : List HistoryTreeRow) : DB :=
  rows.foldl (fun m row => (InsertIntoHistoryTree hash m row).db) (DB.empty n)

/-! ## The DLQ and the replication test -/

/-- Type `types.HistoryEvent`, as far as the test reads and writes it. -/
structure HistoryEvent where
  ID : Int
  Version : Int
deriving DecidableEq, Repr

/-- Type `types.History`: one batch of history events. -/
structure History where
  Events : List HistoryEvent
deriving DecidableEq, Repr

/-- Type `persistence.HistoryReplicationTask`: of its fields the test reads
`FirstEventID`; by the spec the task carries `firstEventID`, `nextEventID`,
version info and the event payload. -/
structure HistoryReplicationTask where
  FirstEventID : Int
  NextEventID : Int
  Events : List HistoryEvent
deriving DecidableEq, Repr

/-- Modelled from the spec: the DLQ store is not among the sources; by the spec
a DLQ entry is `(sourceCluster, shardID, taskID, ackLevel-ordering key,
serializedTask)`, the task ID and the ordering key being two fields. -/
structure DLQEntry where
  SourceCluster : String
  ShardID : Int
  TaskID : Int
  OrderingKey : Int
  Task : HistoryReplicationTask
deriving DecidableEq, Repr

/-- The request `persistence.NewGetReplicationTasksFromDLQRequest` builds from
its five arguments: source cluster, inclusive lower and exclusive upper bound
of the ordering key, page size and continuation token. A non-empty token is
abstracted from its bytes to the number it carries. -/
structure GetReplicationTasksFromDLQRequest where
  SourceClusterName : String
  ReadLevel : Int
  MaxReadLevel : Int
  BatchSize : Nat
  NextPageToken : List Nat
deriving DecidableEq, Repr

/-- The response of `GetReplicationTasksFromDLQ`: the tasks of the page, each
with the identifiers of its entry, and the continuation token. -/
structure GetReplicationTasksFromDLQResponse where
  Tasks : List DLQEntry
  NextPageToken : List Nat
deriving DecidableEq, Repr

/-- The entries a request ranges over: those of its source cluster and of the
shard of the execution manager whose ordering key lies in
`[ReadLevel, MaxReadLevel)`. -/
def dlqInRange (shardID : Int) (request : GetReplicationTasksFromDLQRequest) (e : DLQEntry) :
    Bool :=
  decide (e.SourceCluster = request.SourceClusterName) && decide (e.ShardID = shardID) &&
    decide (request.ReadLevel ≤ e.OrderingKey) && decide (e.OrderingKey < request.MaxReadLevel)

/-- The entries of the range of a request in ordering-key order, entries of
one ordering key in the order they were enqueued. -/
def dlqRange (dlq : List DLQEntry) (shardID : Int)
    (request : GetReplicationTasksFromDLQRequest) : List DLQEntry :=
  (dlq.filter (dlqInRange shardID request)).insertionSort
    (fun a b => a.OrderingKey ≤ b.OrderingKey)

/-- The number of entries the pages before a continuation token returned:
none before the empty token. -/
def returnedBefore (token : List Nat) : Nat :=
  match token with
  | [] => 0
  | n :: _ => n

/-- Modelled from the spec: `GetReplicationTasksFromDLQ` of the execution
manager of shard `shardID` is not among the sources. By the spec, `PageRead`
returns the entries of `(sourceCluster, shardID)` with ordering key in
`[inclusiveMin, exclusiveMax)` in ordering-key order, at most `pageSize` of
them a page, with a continuation token that is non-empty while more pages
remain, and following the tokens yields every entry with no duplicates and no
omissions. The spec does not give the content of the token: a non-empty token
carries the number of entries of the range the pages before it returned, so
that the pages are consecutive whatever the keys of the entries are. -/
def GetReplicationTasksFromDLQ (dlq : List DLQEntry) (shardID : Int)
    (request : GetReplicationTasksFromDLQRequest) : GetReplicationTasksFromDLQResponse :=
  let remaining := (dlqRange dlq shardID request).drop (returnedBefore request.NextPageToken)
  { Tasks := remaining.take request.BatchSize,
    NextPageToken :=
      match remaining.drop request.BatchSize with
      | [] => []
      | _ :: _ => [returnedBefore request.NextPageToken + request.BatchSize] }

/-- The paging loop of `TestReplicationMessageDLQ`,
`for doPaging := true; doPaging; doPaging = len(token) > 0`: each round puts
the token into the request, reads a page, keeps the returned token and collects
the tasks of the page. `fuel` bounds the number of rounds; `none` means it ran
out. -/
def readDLQPages (dlq : List DLQEntry) (shardID : Int)
    (request : GetReplicationTasksFromDLQRequest) :
    Nat → List Nat → List DLQEntry → Option (List DLQEntry)
  | 0, _, _ => none
  | fuel + 1, token, acc =>
    let response := GetReplicationTasksFromDLQ dlq shardID { request with NextPageToken := token }
    if response.NextPageToken.length > 0 then
      readDLQPages dlq shardID request fuel response.NextPageToken (acc ++ response.Tasks)
    else some (acc ++ response.Tasks)

/-- The map `actualDLQMsgs` of the test: the set of the first event IDs of the
tasks read (every value stored in the map is `true`). -/
def firstEventIDs (tasks : List DLQEntry) : Finset Int :=
  (tasks.map (fun t => t.Task.FirstEventID)).toFinset

/-- Modelled from the spec: one entry `(lastEventID, version)` of a version
history, "an ordered sequence of (version segment, lastEventID, version)
entries". -/
structure VersionHistoryItem where
  EventID : Int
  Version : Int
deriving DecidableEq, Repr

/-- Modelled from the spec: adding an event to a version history, whose entries
are ordered by last event ID and say which version covers which range of event
IDs: an event of the version of the last entry extends that entry, an event of
another version opens a new entry. -/
def addOrUpdateItem (items : List VersionHistoryItem) (e : HistoryEvent) :
    List VersionHistoryItem :=
  match items.getLast? with
  | some last =>
    if last.Version = e.Version then items.dropLast ++ [⟨e.ID, e.Version⟩]
    else items ++ [⟨e.ID, e.Version⟩]
  | none => [⟨e.ID, e.Version⟩]

/-- Modelled from the spec: the helper `eventBatchesToVersionHistory` of the
test suite is not among the sources; it extends a version history by the events
of the batches, in order. -/
def eventBatchesToVersionHistory (versionHistory : List VersionHistoryItem)
    (batches : List History) : List VersionHistoryItem :=
  batches.foldl (fun items batch => batch.Events.foldl addOrUpdateItem items) versionHistory

/-- Modelled from the spec: the version a version history records for an event
ID, that of the first entry whose last event ID is not below it. -/
def versionOfEvent (items : List VersionHistoryItem) (eventID : Int) : Option Int :=
  (items.find? (fun i => decide (eventID ≤ i.EventID))).map (fun i => i.Version)

/-- Modelled from the spec: the validation of the replication applier, as far
as versions go: the version metadata of a batch is consistent when every event
carries the version the version history records for its ID. -/
def consistentWith (items : List VersionHistoryItem) (events : List HistoryEvent) : Bool :=
  events.all (fun e => decide (versionOfEvent items e.ID = some e.Version))

/-- Modelled from the spec: a replication task, a history replication task with
its source cluster and the identifiers under which it is kept. -/
structure ReplicationTask where
  SourceCluster : String
  TaskID : Int
  OrderingKey : Int
  Task : HistoryReplicationTask
deriving DecidableEq, Repr

/-- Modelled from the spec: the replication applier of a shard is not among the
sources. Of its state machine `Received → Validated → {Applied | Forked |
Quarantined}` the model keeps what reaches the DLQ: a task whose validation
finds malformed version metadata is quarantined, serialized into a DLQ entry
of its source cluster and of the shard; any other task leaves the DLQ as it
is. -/
def applyReplicationTask (items : List VersionHistoryItem) (shardID : Int)
    (dlq : List DLQEntry) (t : ReplicationTask) : List DLQEntry :=
  if consistentWith items t.Task.Events then dlq
  else dlq ++ [⟨t.SourceCluster, shardID, t.TaskID, t.OrderingKey, t.Task⟩]

/-- Modelled from the spec: the tasks the helper `applyEventsThroughFetcher`
hands to the fetcher are not among the sources: one history replication task a
batch, from its first event to the event after its last. `ids n` is the task ID
and the ordering key of the task of batch `n`. A batch without events has no
first event (`none`). -/
def replicationTasks (sourceCluster : String) (ids : Nat → Int × Int) :
    Nat → List History → Option (List ReplicationTask)
  | _, [] => some []
  | n, batch :: batches =>
    match batch.Events, replicationTasks sourceCluster ids (n + 1) batches with
    | e :: es, some tasks =>
      some (⟨sourceCluster, (ids n).1, (ids n).2,
        ⟨e.ID, (es.getLast?.getD e).ID + 1, e :: es⟩⟩ :: tasks)
    | _, _ => none

/-- Modelled from the spec: the helper `applyEventsThroughFetcher` and the
replication it drives are not among the sources. The result is the DLQ of shard
0 of the active cluster once each task, fetched from cluster `standby`, has gone
through the applier; when that is the case is a matter of time the model leaves
out. -/
def applyEventsThroughFetcher (ids : Nat → Int × Int)
    (versionHistory : List VersionHistoryItem) (historyBatch : List History) :
    Option (List DLQEntry) :=
  (replicationTasks "standby" ids 0 historyBatch).map
    (fun tasks => tasks.foldl (applyReplicationTask versionHistory 0) [])

/-- The assignment `historyBatch[0].Events[1].Version = 2` of the test; `none`
where the Go index is out of range. -/
def setSecondEventVersion (historyBatch : List History) : Option (List History) :=
  match historyBatch with
  | ⟨e0 :: e1 :: es⟩ :: batches => some (⟨e0 :: { e1 with Version := 2 } :: es⟩ :: batches)
  | _ => none

/-- The map `expectedDLQMsgs` of the test: the set of `batch.Events[0].ID` over
the batches; `none` where the Go index is out of range. -/
def expectedDLQMsgs : List History → Option (Finset Int)
  | [] => some ∅
  | batch :: batches =>
    match batch.Events, expectedDLQMsgs batches with
    | e :: _, some expected => some (insert e.ID expected)
    | _, _ => none

/-- The test `TestReplicationMessageDLQ` on the events `events` the generator
hands out, up to the comparison of the two maps: the batch, the version history
of the batch, the change of the version of the second event, the replication,
the expected map and, in one round of the polling loop after the replication,
the paging loop that fills the actual map. The result is the pair
`(expectedDLQMsgs, actualDLQMsgs)` the test compares with `reflect.DeepEqual`. -/
def TestReplicationMessageDLQ (ids : Nat → Int × Int) (events : List HistoryEvent)
    (fuel : Nat) : Option (Finset Int × Finset Int) :=
  let generated : List History := [⟨events⟩]
  let versionHistory := eventBatchesToVersionHistory [] generated
  match setSecondEventVersion generated with
  | none => none
  | some historyBatch =>
    match applyEventsThroughFetcher ids versionHistory historyBatch with
    | none => none
    | some dlq =>
      match expectedDLQMsgs historyBatch with
      | none => none
      | some expected =>
        match readDLQPages dlq 0 ⟨"standby", 0, maxInt64, 9223372036854775807, []⟩ fuel [] [] with
        | none => none
        | some tasks => some (expected, firstEventIDs tasks)

/-- The set of the first event IDs of the batches whose version metadata is
not consistent with the version history. -/
def inconsistentFirstEventIDs (items : List VersionHistoryItem) (historyBatch : List History) :
    Finset Int :=
  ((historyBatch.filter (fun batch => !consistentWith items batch.Events)).filterMap
    (fun batch => batch.Events.head?.map (fun e => e.ID))).toFinset

/-! ## The orders are total and transitive -/

instance : IsTotal HistoryNodeRow nodeOrderLe := ⟨fun a b => by unfold nodeOrderLe UUID; omega⟩

instance : IsTrans HistoryNodeRow nodeOrderLe := ⟨fun a b c => by unfold nodeOrderLe UUID; omega⟩

instance : IsTotal HistoryTreeRow treeOrderLe := ⟨fun a b => by unfold treeOrderLe UUID; omega⟩

instance : IsTrans HistoryTreeRow treeOrderLe := ⟨fun a b c => by unfold treeOrderLe UUID; omega⟩

/-! ## Arithmetic of the sign encoding and the store -/

theorem negateTxnID_involutive (t : Int) (h : IsInt64 t) : negateTxnID (negateTxnID t) = t := by
  unfold IsInt64 minInt64 maxInt64 at h
  unfold negateTxnID wrapInt64
  omega

theorem setShard_same (mdb : DB) (i : Nat) (s : DBShard) : (mdb.setShard i s).shards i = s := by
  simp [DB.setShard]

theorem setShard_ne (mdb : DB) (i j : Nat) (s : DBShard) (h : j ≠ i) :
    (mdb.setShard i s).shards j = mdb.shards j := by
  simp [DB.setShard, h]

theorem setShard_total (mdb : DB) (i : Nat) (s : DBShard) :
    (mdb.setShard i s).totalNumDBShards = mdb.totalNumDBShards := rfl

theorem insertNode_cases (hash : UUID → Nat) (mdb : DB) (row : HistoryNodeRow) :
    let row1 : HistoryNodeRow := { row with TxnID := negateTxnID row.TxnID }
    let d := GetDBShardIDFromTreeID hash row.TreeID mdb.totalNumDBShards
    ((mdb.shards d).history_node.any (fun r => sameNodeKey r row1) = true ∧
        InsertIntoHistoryNode hash mdb row = (row1, ⟨.error .duplicateEntry, mdb⟩)) ∨
      ((mdb.shards d).history_node.any (fun r => sameNodeKey r row1) = false ∧
        InsertIntoHistoryNode hash mdb row =
          (row1, ⟨.ok 1, mdb.setShard d
            { mdb.shards d with history_node := (mdb.shards d).history_node ++ [row1] }⟩)) := by
  intro row1 d
  by_cases h : (mdb.shards d).history_node.any (fun r => sameNodeKey r row1) = true
  · left
    refine ⟨h, ?_⟩
    simp only [InsertIntoHistoryNode, addHistoryNodesQuery, DB.GetTotalNumDBShards]
    rw [if_pos h]
  · right
    refine ⟨by simpa using h, ?_⟩
    simp only [InsertIntoHistoryNode, addHistoryNodesQuery, DB.GetTotalNumDBShards]
    rw [if_neg h]

theorem insertTree_cases (hash : UUID → Nat) (mdb : DB) (row : HistoryTreeRow) :
    let d := GetDBShardIDFromTreeID hash row.TreeID mdb.totalNumDBShards
    ((mdb.shards d).history_tree.any (fun r => sameTreeKey r row) = true ∧
        InsertIntoHistoryTree hash mdb row = ⟨.error .duplicateEntry, mdb⟩) ∨
      ((mdb.shards d).history_tree.any (fun r => sameTreeKey r row) = false ∧
        InsertIntoHistoryTree hash mdb row =
          ⟨.ok 1, mdb.setShard d
            { mdb.shards d with history_tree := (mdb.shards d).history_tree ++ [row] }⟩) := by
  intro d
  by_cases h : (mdb.shards d).history_tree.any (fun r => sameTreeKey r row) = true
  · left
    refine ⟨h, ?_⟩
    simp only [InsertIntoHistoryTree, addHistoryTreeQuery, DB.GetTotalNumDBShards]
    rw [if_pos h]
  · right
    refine ⟨by simpa using h, ?_⟩
    simp only [InsertIntoHistoryTree, addHistoryTreeQuery, DB.GetTotalNumDBShards]
    rw [if_neg h]

theorem selectNode_eq (hash : UUID → Nat) (mdb : DB) (filter : HistoryNodeFilter) :
    SelectFromHistoryNode hash mdb filter =
      (((matchingNodes hash mdb filter).insertionSort nodeOrderLe).take filter.PageSize).map
        readBack := by
  simp only [SelectFromHistoryNode, getHistoryNodesQuery, matchingNodes, List.map_map]
  rfl

theorem mem_matchingNodes (hash : UUID → Nat) (mdb : DB) (filter : HistoryNodeFilter)
    (s : HistoryNodeRow) :
    s ∈ matchingNodes hash mdb filter ↔
      s ∈ (mdb.shards (GetDBShardIDFromTreeID hash filter.TreeID
        mdb.GetTotalNumDBShards)).history_node ∧
      s.ShardID = filter.ShardID ∧ s.TreeID = filter.TreeID ∧ s.BranchID = filter.BranchID ∧
      filter.MinNodeID ≤ s.NodeID ∧ s.NodeID < filter.MaxNodeID := by
  simp only [matchingNodes, List.mem_filter, getHistoryNodesWhere, Bool.and_eq_true,
    decide_eq_true_eq, ge_iff_le]
  tauto

/-! ## C1: the fencing token round trip -/

/-- C1. Fencing-token round trip: for every `int64` token `T` (the smallest
`int64`, whose negation wraps, included) and every node row carrying `T`, once
`InsertIntoHistoryNode` has stored the row, a `SelectFromHistoryNode` whose
filter matches the row (same shard, tree and branch, node within the bounds,
page large enough for the matching records) returns it: the selected columns of
the row, with `TxnID` equal to `T`. -/
theorem fencing_token_round_trip (hash : UUID → Nat) (mdb : DB) (row : HistoryNodeRow)
    (filter : HistoryNodeFilter)
    (hT : IsInt64 row.TxnID)
    (hins : (InsertIntoHistoryNode hash mdb row).2.result = .ok 1)
    (hshard : filter.ShardID = row.ShardID) (htree : filter.TreeID = row.TreeID)
    (hbranch : filter.BranchID = row.BranchID)
    (hmin : filter.MinNodeID ≤ row.NodeID) (hmax : row.NodeID < filter.MaxNodeID)
    (hpage : (matchingNodes hash (InsertIntoHistoryNode hash mdb row).2.db filter).length
      ≤ filter.PageSize) :
    ({ ShardID := 0, TreeID := 0, BranchID := 0, NodeID := row.NodeID, TxnID := row.TxnID,
       Data := row.Data, DataEncoding := row.DataEncoding } : HistoryNodeRow) ∈
      SelectFromHistoryNode hash (InsertIntoHistoryNode hash mdb row).2.db filter := by
  rcases insertNode_cases hash mdb row with ⟨_, h⟩ | ⟨_, h⟩
  · rw [h] at hins; simp at hins
  · rw [h] at hpage ⊢
    simp only [matchingNodes, DB.GetTotalNumDBShards, setShard_total, htree, setShard_same]
      at hpage
    simp only [SelectFromHistoryNode, getHistoryNodesQuery, DB.GetTotalNumDBShards,
      setShard_total, htree, setShard_same]
    rw [List.take_of_length_le (by rw [List.length_insertionSort]; exact hpage)]
    simp only [List.mem_map, List.mem_insertionSort, List.mem_filter, List.mem_append,
      List.mem_singleton]
    refine ⟨scanHistoryNode { row with TxnID := negateTxnID row.TxnID },
      ⟨{ row with TxnID := negateTxnID row.TxnID }, ⟨Or.inr rfl, ?_⟩, rfl⟩, ?_⟩
    · simp [getHistoryNodesWhere, hshard, hbranch, hmin, hmax]
    · simp [scanHistoryNode, negateTxnID_involutive _ hT]

/-- C1, witness: the round trip of the smallest `int64`, whose negation wraps,
through a store that already holds a record of the same node. -/
theorem fencing_token_round_trip_witness :
    IsInt64 minInt64 ∧
    (InsertIntoHistoryNode (fun t => t)
      (storeOfNodes (fun t => t) 4 [⟨2, 7, 1, 1, 3, [3], "thriftrw"⟩])
      ⟨2, 7, 1, 1, minInt64, [9], "thriftrw"⟩).2.result = .ok 1 ∧
    (⟨0, 0, 0, 1, minInt64, [9], "thriftrw"⟩ : HistoryNodeRow) ∈
      SelectFromHistoryNode (fun t => t)
        (InsertIntoHistoryNode (fun t => t)
          (storeOfNodes (fun t => t) 4 [⟨2, 7, 1, 1, 3, [3], "thriftrw"⟩])
          ⟨2, 7, 1, 1, minInt64, [9], "thriftrw"⟩).2.db
        ⟨2, 7, 1, 0, 10, 2⟩ :=
  ⟨by decide, rfl,
    fencing_token_round_trip (fun t => t)
      (storeOfNodes (fun t => t) 4 [⟨2, 7, 1, 1, 3, [3], "thriftrw"⟩])
      ⟨2, 7, 1, 1, minInt64, [9], "thriftrw"⟩ ⟨2, 7, 1, 0, 10, 2⟩
      (by decide) rfl rfl rfl rfl (by decide) (by decide) (by decide)⟩

/-! ## C2: what the caller of the insert reads afterwards -/

/-- C2, as amended. After `InsertIntoHistoryNode` returns, with or without
error, the caller reads its row with `TxnID` replaced by the wrapped negation
of `T` and every other field unchanged; the token reads `T` again only for
`T = 0` and for the smallest `int64`. -/
theorem insert_negates_caller_row (hash : UUID → Nat) (mdb : DB) (row : HistoryNodeRow) :
    (InsertIntoHistoryNode hash mdb row).1 =
      { ShardID := row.ShardID, TreeID := row.TreeID, BranchID := row.BranchID,
        NodeID := row.NodeID, TxnID := negateTxnID row.TxnID, Data := row.Data,
        DataEncoding := row.DataEncoding } ∧
    (IsInt64 row.TxnID →
      ((InsertIntoHistoryNode hash mdb row).1.TxnID = row.TxnID ↔
        (row.TxnID = 0 ∨ row.TxnID = minInt64))) := by
  have h1 : (InsertIntoHistoryNode hash mdb row).1 =
      { ShardID := row.ShardID, TreeID := row.TreeID, BranchID := row.BranchID,
        NodeID := row.NodeID, TxnID := negateTxnID row.TxnID, Data := row.Data,
        DataEncoding := row.DataEncoding } := by
    rcases insertNode_cases hash mdb row with ⟨_, h⟩ | ⟨_, h⟩ <;> rw [h]
  refine ⟨h1, ?_⟩
  intro hT
  rw [h1]
  unfold IsInt64 minInt64 maxInt64 at hT
  simp only [negateTxnID, wrapInt64, minInt64]
  omega

/-- C2, counterexample. A row with token 5 is inserted into an empty store
without error; afterwards the caller reads token -5 through its row, not 5. -/
theorem insert_leaks_negated_token :
    (InsertIntoHistoryNode (fun t => t) (DB.empty 4) ⟨2, 7, 1, 1, 5, [1], "thriftrw"⟩).2.result
      = .ok 1 ∧
    (InsertIntoHistoryNode (fun t => t) (DB.empty 4) ⟨2, 7, 1, 1, 5, [1], "thriftrw"⟩).1.TxnID
      = -5 ∧
    (InsertIntoHistoryNode (fun t => t) (DB.empty 4) ⟨2, 7, 1, 1, 5, [1], "thriftrw"⟩).1.TxnID
      ≠ (⟨2, 7, 1, 1, 5, [1], "thriftrw"⟩ : HistoryNodeRow).TxnID := by
  refine ⟨rfl, by decide, by decide⟩

/-! ## C3: routing by the tree -/

theorem insertNode_issuedTo (hash : UUID → Nat) (mdb : DB) (row : HistoryNodeRow) :
    IssuedTo (GetDBShardIDFromTreeID hash row.TreeID mdb.GetTotalNumDBShards)
      (fun m => (InsertIntoHistoryNode hash m row).2) mdb := by
  refine ⟨?_, ?_, ?_⟩
  · rcases insertNode_cases hash mdb row with ⟨_, h⟩ | ⟨_, h⟩ <;> simp only [h, setShard_total]
  · intro i hi
    rcases insertNode_cases hash mdb row with ⟨_, h⟩ | ⟨_, h⟩ <;> simp only [h]
    exact setShard_ne _ _ _ _ hi
  · intro mdb2 hN hs
    simp only [DB.GetTotalNumDBShards] at *
    rcases insertNode_cases hash mdb row with ⟨c, h⟩ | ⟨c, h⟩ <;>
      rcases insertNode_cases hash mdb2 row with ⟨c2, h2⟩ | ⟨c2, h2⟩ <;>
      simp only [h, h2] <;> simp only [hN, hs] at c2 ⊢
    · exact ⟨trivial, trivial⟩
    · rw [c] at c2; cases c2
    · rw [c] at c2; cases c2
    · simp [setShard_same]

theorem insertTree_issuedTo (hash : UUID → Nat) (mdb : DB) (row : HistoryTreeRow) :
    IssuedTo (GetDBShardIDFromTreeID hash row.TreeID mdb.GetTotalNumDBShards)
      (fun m => InsertIntoHistoryTree hash m row) mdb := by
  refine ⟨?_, ?_, ?_⟩
  · rcases insertTree_cases hash mdb row with ⟨_, h⟩ | ⟨_, h⟩ <;> simp only [h, setShard_total]
  · intro i hi
    rcases insertTree_cases hash mdb row with ⟨_, h⟩ | ⟨_, h⟩ <;> simp only [h]
    exact setShard_ne _ _ _ _ hi
  · intro mdb2 hN hs
    simp only [DB.GetTotalNumDBShards] at *
    rcases insertTree_cases hash mdb row with ⟨c, h⟩ | ⟨c, h⟩ <;>
      rcases insertTree_cases hash mdb2 row with ⟨c2, h2⟩ | ⟨c2, h2⟩ <;>
      simp only [h, h2] <;> simp only [hN, hs] at c2 ⊢
    · exact ⟨trivial, trivial⟩
    · rw [c] at c2; cases c2
    · rw [c] at c2; cases c2
    · simp [setShard_same]

theorem deleteNode_issuedTo (hash : UUID → Nat) (mdb : DB) (filter : HistoryNodeFilter) :
    IssuedTo (GetDBShardIDFromTreeID hash filter.TreeID mdb.GetTotalNumDBShards)
      (fun m => DeleteFromHistoryNode hash m filter) mdb := by
  refine ⟨rfl, fun i hi => setShard_ne _ _ _ _ hi, ?_⟩
  intro mdb2 hN hs
  simp only [DB.GetTotalNumDBShards] at *
  simp only [DeleteFromHistoryNode, DB.GetTotalNumDBShards, hN, hs, setShard_same, and_self]

theorem deleteTree_issuedTo (hash : UUID → Nat) (mdb : DB) (filter : HistoryTreeFilter) :
    IssuedTo (GetDBShardIDFromTreeID hash filter.TreeID mdb.GetTotalNumDBShards)
      (fun m => DeleteFromHistoryTree hash m filter) mdb := by
  refine ⟨rfl, fun i hi => setShard_ne _ _ _ _ hi, ?_⟩
  intro mdb2 hN hs
  simp only [DB.GetTotalNumDBShards] at *
  simp only [DeleteFromHistoryTree, DB.GetTotalNumDBShards, hN, hs, setShard_same, and_self]

theorem selectNode_readFrom (hash : UUID → Nat) (mdb : DB) (filter : HistoryNodeFilter) :
    ReadFrom (GetDBShardIDFromTreeID hash filter.TreeID mdb.GetTotalNumDBShards)
      (fun m => SelectFromHistoryNode hash m filter) mdb := by
  intro mdb2 hN hs
  simp only [DB.GetTotalNumDBShards] at *
  simp only [SelectFromHistoryNode, DB.GetTotalNumDBShards, hN, hs]

theorem selectTree_readFrom (hash : UUID → Nat) (mdb : DB) (filter : HistoryTreeFilter) :
    ReadFrom (GetDBShardIDFromTreeID hash filter.TreeID mdb.GetTotalNumDBShards)
      (fun m => SelectFromHistoryTree hash m filter) mdb := by
  intro mdb2 hN hs
  simp only [DB.GetTotalNumDBShards] at *
  simp only [SelectFromHistoryTree, DB.GetTotalNumDBShards, hN, hs]

theorem wellRouted_empty (hash : UUID → Nat) (n : Nat) : WellRouted hash (DB.empty n) := by
  intro i
  simp [DB.empty]

theorem wellRouted_setShard (hash : UUID → Nat) (mdb : DB) (d : Nat) (s : DBShard)
    (h : WellRouted hash mdb)
    (hn : ∀ r ∈ s.history_node, GetDBShardIDFromTreeID hash r.TreeID mdb.totalNumDBShards = d)
    (ht : ∀ r ∈ s.history_tree, GetDBShardIDFromTreeID hash r.TreeID mdb.totalNumDBShards = d) :
    WellRouted hash (mdb.setShard d s) := by
  intro i
  by_cases hi : i = d
  · subst hi
    simp only [setShard_same, DB.GetTotalNumDBShards, setShard_total]
    exact ⟨hn, ht⟩
  · simp only [setShard_ne _ _ _ _ hi, DB.GetTotalNumDBShards, setShard_total]
    exact h i

theorem wellRouted_insertNode (hash : UUID → Nat) (mdb : DB) (row : HistoryNodeRow)
    (h : WellRouted hash mdb) : WellRouted hash (InsertIntoHistoryNode hash mdb row).2.db := by
  rcases insertNode_cases hash mdb row with ⟨_, e⟩ | ⟨_, e⟩ <;> simp only [e]
  · exact h
  · apply wellRouted_setShard hash mdb _ _ h
    · intro r hr
      simp only [List.mem_append, List.mem_singleton] at hr
      rcases hr with hr | hr
      · exact (h _).1 r hr
      · subst hr; rfl
    · exact (h _).2

theorem wellRouted_insertTree (hash : UUID → Nat) (mdb : DB) (row : HistoryTreeRow)
    (h : WellRouted hash mdb) : WellRouted hash (InsertIntoHistoryTree hash mdb row).db := by
  rcases insertTree_cases hash mdb row with ⟨_, e⟩ | ⟨_, e⟩ <;> simp only [e]
  · exact h
  · apply wellRouted_setShard hash mdb _ _ h
    · exact (h _).1
    · intro r hr
      simp only [List.mem_append, List.mem_singleton] at hr
      rcases hr with hr | hr
      · exact (h _).2 r hr
      · subst hr; rfl

theorem wellRouted_deleteNode (hash : UUID → Nat) (mdb : DB) (filter : HistoryNodeFilter)
    (h : WellRouted hash mdb) : WellRouted hash (DeleteFromHistoryNode hash mdb filter).db := by
  apply wellRouted_setShard hash mdb _ _ h
  · intro r hr
    exact (h _).1 r ((List.diff_sublist _ _).subset hr)
  · exact (h _).2

theorem wellRouted_deleteTree (hash : UUID → Nat) (mdb : DB) (filter : HistoryTreeFilter)
    (h : WellRouted hash mdb) : WellRouted hash (DeleteFromHistoryTree hash mdb filter).db := by
  apply wellRouted_setShard hash mdb _ _ h
  · exact (h _).1
  · intro r hr
    exact (h _).2 r (List.mem_of_mem_filter hr)

theorem wellRouted_node_shard (hash : UUID → Nat) (mdb : DB) (h : WellRouted hash mdb)
    (i : Nat) (s : HistoryNodeRow) (hs : s ∈ (mdb.shards i).history_node) (t : UUID)
    (ht : s.TreeID = t) : i = GetDBShardIDFromTreeID hash t mdb.GetTotalNumDBShards := by
  rw [← ht]; exact ((h i).1 s hs).symm

/-- C3. Storage-shard routing is a function of the tree alone and the same for
every operation: each of the six operations works on the storage shard
`GetDBShardIDFromTreeID treeID N` of the tree of its row or filter and on no
other (`IssuedTo`, `ReadFrom`), whatever the shardID, branchID or nodeID; a
stored row lands on that shard; and so every record sits on the shard of its
tree (`WellRouted`), in the empty store and after every operation. -/
theorem shard_routing_by_treeID (hash : UUID → Nat) (mdb : DB) :
    (∀ row : HistoryNodeRow,
      IssuedTo (GetDBShardIDFromTreeID hash row.TreeID mdb.GetTotalNumDBShards)
        (fun m => (InsertIntoHistoryNode hash m row).2) mdb) ∧
    (∀ filter : HistoryNodeFilter,
      ReadFrom (GetDBShardIDFromTreeID hash filter.TreeID mdb.GetTotalNumDBShards)
        (fun m => SelectFromHistoryNode hash m filter) mdb) ∧
    (∀ filter : HistoryNodeFilter,
      IssuedTo (GetDBShardIDFromTreeID hash filter.TreeID mdb.GetTotalNumDBShards)
        (fun m => DeleteFromHistoryNode hash m filter) mdb) ∧
    (∀ row : HistoryTreeRow,
      IssuedTo (GetDBShardIDFromTreeID hash row.TreeID mdb.GetTotalNumDBShards)
        (fun m => InsertIntoHistoryTree hash m row) mdb) ∧
    (∀ filter : HistoryTreeFilter,
      ReadFrom (GetDBShardIDFromTreeID hash filter.TreeID mdb.GetTotalNumDBShards)
        (fun m => SelectFromHistoryTree hash m filter) mdb) ∧
    (∀ filter : HistoryTreeFilter,
      IssuedTo (GetDBShardIDFromTreeID hash filter.TreeID mdb.GetTotalNumDBShards)
        (fun m => DeleteFromHistoryTree hash m filter) mdb) ∧
    (∀ row : HistoryNodeRow, (InsertIntoHistoryNode hash mdb row).2.result = .ok 1 →
      ({ row with TxnID := negateTxnID row.TxnID } : HistoryNodeRow) ∈
        ((InsertIntoHistoryNode hash mdb row).2.db.shards
          (GetDBShardIDFromTreeID hash row.TreeID mdb.GetTotalNumDBShards)).history_node) ∧
    (∀ row : HistoryTreeRow, (InsertIntoHistoryTree hash mdb row).result = .ok 1 →
      row ∈ ((InsertIntoHistoryTree hash mdb row).db.shards
        (GetDBShardIDFromTreeID hash row.TreeID mdb.GetTotalNumDBShards)).history_tree) ∧
    WellRouted hash (DB.empty mdb.GetTotalNumDBShards) ∧
    (WellRouted hash mdb →
      (∀ row : HistoryNodeRow, WellRouted hash (InsertIntoHistoryNode hash mdb row).2.db) ∧
      (∀ filter : HistoryNodeFilter,
        WellRouted hash (DeleteFromHistoryNode hash mdb filter).db) ∧
      (∀ row : HistoryTreeRow, WellRouted hash (InsertIntoHistoryTree hash mdb row).db) ∧
      (∀ filter : HistoryTreeFilter,
        WellRouted hash (DeleteFromHistoryTree hash mdb filter).db)) := by
  refine ⟨insertNode_issuedTo hash mdb, selectNode_readFrom hash mdb,
    deleteNode_issuedTo hash mdb, insertTree_issuedTo hash mdb, selectTree_readFrom hash mdb,
    deleteTree_issuedTo hash mdb, ?_, ?_, wellRouted_empty hash _, ?_⟩
  · intro row hr
    rcases insertNode_cases hash mdb row with ⟨_, h⟩ | ⟨_, h⟩
    · rw [h] at hr; simp at hr
    · rw [h]
      simp only [DB.GetTotalNumDBShards, setShard_same, List.mem_append, List.mem_singleton,
        or_true]
  · intro row hr
    rcases insertTree_cases hash mdb row with ⟨_, h⟩ | ⟨_, h⟩
    · rw [h] at hr; simp at hr
    · rw [h]
      simp only [DB.GetTotalNumDBShards, setShard_same, List.mem_append, List.mem_singleton,
        or_true]
  · intro hw
    exact ⟨fun row => wellRouted_insertNode hash mdb row hw,
      fun f => wellRouted_deleteNode hash mdb f hw,
      fun row => wellRouted_insertTree hash mdb row hw,
      fun f => wellRouted_deleteTree hash mdb f hw⟩

/-! ## C4: range read -/

/-- C4. Range read bounds, order and limit: `SelectFromHistoryNode` returns at
most `PageSize` rows; every one is read (`readBack`) from a stored record of
exactly the shard, tree and branch of the filter with
`MinNodeID <= NodeID < MaxNodeID`; the rows come in non-decreasing `NodeID`
order; when fewer than `PageSize` rows are returned, every matching record of
the shard of the tree (of the whole store, when it is well routed) is among
them; and nodes inserted with node IDs 5, 1, 3 and read with bounds 0 and 10
come back as 1, 3, 5. -/
theorem range_read_bounds_order_limit (hash : UUID → Nat) (mdb : DB)
    (filter : HistoryNodeFilter) :
    (SelectFromHistoryNode hash mdb filter).length ≤ filter.PageSize ∧
    (∀ r ∈ SelectFromHistoryNode hash mdb filter,
      ∃ s ∈ (mdb.shards (GetDBShardIDFromTreeID hash filter.TreeID
          mdb.GetTotalNumDBShards)).history_node,
        s.ShardID = filter.ShardID ∧ s.TreeID = filter.TreeID ∧
        s.BranchID = filter.BranchID ∧ filter.MinNodeID ≤ s.NodeID ∧
        s.NodeID < filter.MaxNodeID ∧ r = readBack s) ∧
    (SelectFromHistoryNode hash mdb filter).Pairwise (fun a b => a.NodeID ≤ b.NodeID) ∧
    ((SelectFromHistoryNode hash mdb filter).length < filter.PageSize →
      ∀ i, ∀ s ∈ (mdb.shards i).history_node,
        (i = GetDBShardIDFromTreeID hash filter.TreeID mdb.GetTotalNumDBShards ∨
          WellRouted hash mdb) →
        s.ShardID = filter.ShardID → s.TreeID = filter.TreeID →
        s.BranchID = filter.BranchID → filter.MinNodeID ≤ s.NodeID →
        s.NodeID < filter.MaxNodeID → readBack s ∈ SelectFromHistoryNode hash mdb filter) ∧
    (SelectFromHistoryNode (fun t => t)
        (storeOfNodes (fun t => t) 4
          [⟨2, 7, 1, 5, 11, [5], "thriftrw"⟩, ⟨2, 7, 1, 1, 12, [1], "thriftrw"⟩,
           ⟨2, 7, 1, 3, 13, [3], "thriftrw"⟩])
        ⟨2, 7, 1, 0, 10, 100⟩ =
      [⟨0, 0, 0, 1, 12, [1], "thriftrw"⟩, ⟨0, 0, 0, 3, 13, [3], "thriftrw"⟩,
       ⟨0, 0, 0, 5, 11, [5], "thriftrw"⟩]) := by
  refine ⟨?_, ?_, ?_, ?_, by decide⟩
  · rw [selectNode_eq, List.length_map, List.length_take]
    exact Nat.min_le_left _ _
  · intro r hr
    rw [selectNode_eq, List.mem_map] at hr
    obtain ⟨s, hs, rfl⟩ := hr
    have hs2 := (List.mem_insertionSort _).1 (List.mem_of_mem_take hs)
    rw [mem_matchingNodes] at hs2
    exact ⟨s, hs2.1, hs2.2.1, hs2.2.2.1, hs2.2.2.2.1, hs2.2.2.2.2.1, hs2.2.2.2.2.2, rfl⟩
  · rw [selectNode_eq, List.pairwise_map]
    apply List.Pairwise.sublist (List.take_sublist _ _)
    have hsorted := List.sorted_insertionSort nodeOrderLe (matchingNodes hash mdb filter)
    refine List.Pairwise.imp_of_mem ?_ hsorted
    intro a b ha hb hab
    have ha2 := (mem_matchingNodes hash mdb filter a).1 ((List.mem_insertionSort _).1 ha)
    have hb2 := (mem_matchingNodes hash mdb filter b).1 ((List.mem_insertionSort _).1 hb)
    obtain ⟨-, a1, a2, a3, -, -⟩ := ha2
    obtain ⟨-, b1, b2, b3, -, -⟩ := hb2
    simp only [readBack]
    unfold nodeOrderLe at hab
    unfold UUID at *
    omega
  · intro hlen i s hs hi h1 h2 h3 h4 h5
    have hid : i = GetDBShardIDFromTreeID hash filter.TreeID mdb.GetTotalNumDBShards := by
      rcases hi with hi | hi
      · exact hi
      · exact wellRouted_node_shard hash mdb hi i s hs _ h2
    subst hid
    rw [selectNode_eq, List.length_map, List.length_take, List.length_insertionSort] at hlen
    rw [selectNode_eq, List.take_of_length_le (by rw [List.length_insertionSort]; omega)]
    exact List.mem_map_of_mem _ ((List.mem_insertionSort _).2
      ((mem_matchingNodes hash mdb filter s).2 ⟨hs, h1, h2, h3, h4, h5⟩))

/-! ## C5: the order of the tokens as read -/

/-- C5, as amended. Among the rows `SelectFromHistoryNode` returns for one
node, the order is ascending in the stored, negated token: the row whose token
as read is larger comes before the row whose token as read is smaller, except
that a row whose token is the smallest `int64`, which negation leaves
unchanged, comes first. -/
theorem txn_order_descending_as_read (hash : UUID → Nat) (mdb : DB)
    (filter : HistoryNodeFilter)
    (hstore : ∀ s ∈ (mdb.shards (GetDBShardIDFromTreeID hash filter.TreeID
      mdb.GetTotalNumDBShards)).history_node, IsInt64 s.TxnID) :
    (SelectFromHistoryNode hash mdb filter).Pairwise (fun a b =>
      a.NodeID = b.NodeID →
        negateTxnID a.TxnID ≤ negateTxnID b.TxnID ∧
        (a.TxnID ≠ minInt64 → b.TxnID ≤ a.TxnID)) := by
  rw [selectNode_eq, List.pairwise_map]
  apply List.Pairwise.sublist (List.take_sublist _ _)
  have hsorted := List.sorted_insertionSort nodeOrderLe (matchingNodes hash mdb filter)
  refine List.Pairwise.imp_of_mem ?_ hsorted
  intro a b ha hb hab
  have ha2 := (mem_matchingNodes hash mdb filter a).1 ((List.mem_insertionSort _).1 ha)
  have hb2 := (mem_matchingNodes hash mdb filter b).1 ((List.mem_insertionSort _).1 hb)
  have hai := hstore a ha2.1
  have hbi := hstore b hb2.1
  obtain ⟨-, a1, a2, a3, -, -⟩ := ha2
  obtain ⟨-, b1, b2, b3, -, -⟩ := hb2
  simp only [readBack]
  intro hn
  rw [negateTxnID_involutive _ hai, negateTxnID_involutive _ hbi]
  unfold nodeOrderLe at hab
  unfold IsInt64 minInt64 maxInt64 at hai hbi
  simp only [negateTxnID, wrapInt64, minInt64]
  unfold UUID at *
  omega

/-- C5, witness: the amended order on a store holding tokens 3 and 5 for one
node. -/
theorem txn_order_descending_as_read_witness :
    (∀ s ∈ ((storeOfNodes (fun t => t) 4
        [⟨2, 7, 1, 1, 3, [3], "thriftrw"⟩, ⟨2, 7, 1, 1, 5, [5], "thriftrw"⟩]).shards
          (GetDBShardIDFromTreeID (fun t => t) 7 4)).history_node, IsInt64 s.TxnID) ∧
    (SelectFromHistoryNode (fun t => t)
      (storeOfNodes (fun t => t) 4
        [⟨2, 7, 1, 1, 3, [3], "thriftrw"⟩, ⟨2, 7, 1, 1, 5, [5], "thriftrw"⟩])
      ⟨2, 7, 1, 0, 10, 100⟩).Pairwise (fun a b =>
        a.NodeID = b.NodeID →
          negateTxnID a.TxnID ≤ negateTxnID b.TxnID ∧
          (a.TxnID ≠ minInt64 → b.TxnID ≤ a.TxnID)) :=
  ⟨by decide,
    txn_order_descending_as_read (fun t => t)
      (storeOfNodes (fun t => t) 4
        [⟨2, 7, 1, 1, 3, [3], "thriftrw"⟩, ⟨2, 7, 1, 1, 5, [5], "thriftrw"⟩])
      ⟨2, 7, 1, 0, 10, 100⟩ (by decide)⟩

/-- C5, counterexample. With tokens 3 and 5 stored for node 1, the read
returns token 5 before token 3: the rows of one node are not in ascending
order of the token as read. -/
theorem txn_order_as_read_counterexample :
    (SelectFromHistoryNode (fun t => t)
      (storeOfNodes (fun t => t) 4
        [⟨2, 7, 1, 1, 3, [3], "thriftrw"⟩, ⟨2, 7, 1, 1, 5, [5], "thriftrw"⟩])
      ⟨2, 7, 1, 0, 10, 100⟩) =
      [⟨0, 0, 0, 1, 5, [5], "thriftrw"⟩, ⟨0, 0, 0, 1, 3, [3], "thriftrw"⟩] ∧
    ¬ (SelectFromHistoryNode (fun t => t)
      (storeOfNodes (fun t => t) 4
        [⟨2, 7, 1, 1, 3, [3], "thriftrw"⟩, ⟨2, 7, 1, 1, 5, [5], "thriftrw"⟩])
      ⟨2, 7, 1, 0, 10, 100⟩).Pairwise (fun a b => a.NodeID = b.NodeID → a.TxnID ≤ b.TxnID) := by
  refine ⟨by decide, by decide⟩

/-! ## C6 and C7: range delete -/

theorem victims_subperm (shardID : Int) (treeID branchID : UUID) (minNodeID : Int) (limit : Nat)
    (t : List HistoryNodeRow) :
    List.Subperm (deleteHistoryNodesVictims shardID treeID branchID minNodeID limit t) t := by
  unfold deleteHistoryNodesVictims
  exact ((List.take_sublist _ _).subperm.trans (List.perm_insertionSort _ _).subperm).trans
    (List.filter_sublist _).subperm

theorem victims_perm (shardID : Int) (treeID branchID : UUID) (minNodeID : Int) (limit : Nat)
    (t : List HistoryNodeRow) :
    List.Perm t (deleteHistoryNodesVictims shardID treeID branchID minNodeID limit t ++
      (deleteHistoryNodesQuery shardID treeID branchID minNodeID limit t).1) := by
  unfold deleteHistoryNodesQuery
  exact (List.subperm_append_diff_self_of_count_le
    (fun x _ => (victims_subperm shardID treeID branchID minNodeID limit t).count_le x)).symm

theorem victims_where (shardID : Int) (treeID branchID : UUID) (minNodeID : Int) (limit : Nat)
    (t : List HistoryNodeRow) (v : HistoryNodeRow)
    (hv : v ∈ deleteHistoryNodesVictims shardID treeID branchID minNodeID limit t) :
    deleteHistoryNodesWhere shardID treeID branchID minNodeID v = true := by
  unfold deleteHistoryNodesVictims at hv
  exact (List.mem_filter.1 ((List.mem_insertionSort _).1 (List.mem_of_mem_take hv))).2

theorem deleteNode_shard (hash : UUID → Nat) (mdb : DB) (filter : HistoryNodeFilter) :
    ((DeleteFromHistoryNode hash mdb filter).db.shards
        (GetDBShardIDFromTreeID hash filter.TreeID mdb.GetTotalNumDBShards)).history_node =
      (deleteHistoryNodesQuery filter.ShardID filter.TreeID filter.BranchID filter.MinNodeID
        filter.PageSize (mdb.shards (GetDBShardIDFromTreeID hash filter.TreeID
          mdb.GetTotalNumDBShards)).history_node).1 := by
  simp only [DeleteFromHistoryNode, setShard_same]

theorem victims_below_rest (shardID : Int) (treeID branchID : UUID) (minNodeID : Int)
    (limit : Nat) (t : List HistoryNodeRow) (v s : HistoryNodeRow)
    (hv : v ∈ deleteHistoryNodesVictims shardID treeID branchID minNodeID limit t)
    (hs : s ∈ (deleteHistoryNodesQuery shardID treeID branchID minNodeID limit t).1)
    (hw : deleteHistoryNodesWhere shardID treeID branchID minNodeID s = true) :
    nodeOrderLe v s := by
  have hp := (victims_perm shardID treeID branchID minNodeID limit t).filter
    (deleteHistoryNodesWhere shardID treeID branchID minNodeID)
  rw [List.filter_append, List.filter_eq_self.2 (victims_where shardID treeID branchID
    minNodeID limit t)] at hp
  have hsort := List.perm_insertionSort nodeOrderLe
    (t.filter (deleteHistoryNodesWhere shardID treeID branchID minNodeID))
  have hsplit := List.take_append_drop limit
    ((t.filter (deleteHistoryNodesWhere shardID treeID branchID minNodeID)).insertionSort
      nodeOrderLe)
  have hp2 := hsort.trans hp
  rw [← hsplit] at hp2
  have hrest := (List.perm_append_left_iff _).1 hp2
  have hsd : s ∈ List.drop limit
      ((t.filter (deleteHistoryNodesWhere shardID treeID branchID minNodeID)).insertionSort
        nodeOrderLe) :=
    hrest.symm.subset (List.mem_filter.2 ⟨hs, hw⟩)
  have hsorted := List.sorted_insertionSort nodeOrderLe
    (t.filter (deleteHistoryNodesWhere shardID treeID branchID minNodeID))
  rw [← hsplit] at hsorted
  exact (List.pairwise_append.1 hsorted).2.2 v hv s hsd

/-- C6. Range delete scoping: `DeleteFromHistoryNode` leaves every
`history_tree` table as it is, adds or changes no `history_node` record, and
keeps every record that is not of exactly the shard, tree and branch of the
filter with `NodeID >= MinNodeID`, on every storage shard and with its
multiplicity: records of a sibling branch, of another tree or shard, or of the
same branch below `MinNodeID` are still present and unchanged. -/
theorem range_delete_scoping (hash : UUID → Nat) (mdb : DB) (filter : HistoryNodeFilter) :
    (∀ i, ((DeleteFromHistoryNode hash mdb filter).db.shards i).history_tree =
      (mdb.shards i).history_tree) ∧
    (∀ i, List.Sublist ((DeleteFromHistoryNode hash mdb filter).db.shards i).history_node
      (mdb.shards i).history_node) ∧
    (∀ i s, ¬ (s.ShardID = filter.ShardID ∧ s.TreeID = filter.TreeID ∧
        s.BranchID = filter.BranchID ∧ filter.MinNodeID ≤ s.NodeID) →
      List.count s ((DeleteFromHistoryNode hash mdb filter).db.shards i).history_node =
        List.count s (mdb.shards i).history_node) ∧
    (∀ i s, s ∈ (mdb.shards i).history_node →
      (s.ShardID ≠ filter.ShardID ∨ s.TreeID ≠ filter.TreeID ∨ s.BranchID ≠ filter.BranchID ∨
        s.NodeID < filter.MinNodeID) →
      s ∈ ((DeleteFromHistoryNode hash mdb filter).db.shards i).history_node) := by
  have hcount : ∀ i s, ¬ (s.ShardID = filter.ShardID ∧ s.TreeID = filter.TreeID ∧
        s.BranchID = filter.BranchID ∧ filter.MinNodeID ≤ s.NodeID) →
      List.count s ((DeleteFromHistoryNode hash mdb filter).db.shards i).history_node =
        List.count s (mdb.shards i).history_node := by
    intro i s hs
    by_cases hi : i = GetDBShardIDFromTreeID hash filter.TreeID mdb.GetTotalNumDBShards
    · subst hi
      rw [deleteNode_shard]
      have hp := (victims_perm filter.ShardID filter.TreeID filter.BranchID filter.MinNodeID
        filter.PageSize (mdb.shards (GetDBShardIDFromTreeID hash filter.TreeID
          mdb.GetTotalNumDBShards)).history_node).count_eq s
      rw [List.count_append] at hp
      have hz : List.count s (deleteHistoryNodesVictims filter.ShardID filter.TreeID
          filter.BranchID filter.MinNodeID filter.PageSize
          (mdb.shards (GetDBShardIDFromTreeID hash filter.TreeID
            mdb.GetTotalNumDBShards)).history_node) = 0 := by
        apply List.count_eq_zero_of_not_mem
        intro hmem
        have hw := victims_where _ _ _ _ _ _ _ hmem
        simp only [deleteHistoryNodesWhere, Bool.and_eq_true, decide_eq_true_eq,
          ge_iff_le] at hw
        exact hs ⟨hw.1.1.1, hw.1.1.2, hw.1.2, hw.2⟩
      omega
    · simp only [DeleteFromHistoryNode, setShard_ne _ _ _ _ hi]
  refine ⟨?_, ?_, hcount, ?_⟩
  · intro i
    by_cases hi : i = GetDBShardIDFromTreeID hash filter.TreeID mdb.GetTotalNumDBShards
    · subst hi
      simp only [DeleteFromHistoryNode, setShard_same]
    · simp only [DeleteFromHistoryNode, setShard_ne _ _ _ _ hi]
  · intro i
    by_cases hi : i = GetDBShardIDFromTreeID hash filter.TreeID mdb.GetTotalNumDBShards
    · subst hi
      rw [deleteNode_shard]
      exact List.diff_sublist _ _
    · simp only [DeleteFromHistoryNode, setShard_ne _ _ _ _ hi]
      exact List.Sublist.refl _
  · intro i s hs hne
    have hc := hcount i s (by
      rintro ⟨h1, h2, h3, h4⟩
      rcases hne with h | h | h | h
      · exact h h1
      · exact h h2
      · exact h h3
      · omega)
    have hpos : 0 < List.count s (mdb.shards i).history_node := List.count_pos_iff.2 hs
    rw [← hc] at hpos
    exact List.count_pos_iff.1 hpos

/-- C7. Range delete amount and count: with `m` records of the shard, tree and
branch of the filter at or above `MinNodeID` (on the storage shard of the tree,
where a well-routed store keeps all records of the tree),
`DeleteFromHistoryNode` reports `min PageSize m` affected rows and removes
exactly that many matching records, in ascending `(NodeID, stored TxnID)`
order and each of them not above any matching record it leaves. With nodes 1
to 3 in a branch, the read of `[1, 4)` returns 3 rows, the delete from node 2
reports 2, and the following read returns exactly the row of node 1. -/
theorem range_delete_amount_and_count (hash : UUID → Nat) (mdb : DB)
    (filter : HistoryNodeFilter) :
    (DeleteFromHistoryNode hash mdb filter).result =
      .ok (min filter.PageSize
        (((mdb.shards (GetDBShardIDFromTreeID hash filter.TreeID
          mdb.GetTotalNumDBShards)).history_node.filter
            (deleteHistoryNodesWhere filter.ShardID filter.TreeID filter.BranchID
              filter.MinNodeID)).length)) ∧
    (∃ victims : List HistoryNodeRow,
      victims.length = min filter.PageSize
        (((mdb.shards (GetDBShardIDFromTreeID hash filter.TreeID
          mdb.GetTotalNumDBShards)).history_node.filter
            (deleteHistoryNodesWhere filter.ShardID filter.TreeID filter.BranchID
              filter.MinNodeID)).length) ∧
      List.Perm (mdb.shards (GetDBShardIDFromTreeID hash filter.TreeID
          mdb.GetTotalNumDBShards)).history_node
        (victims ++ ((DeleteFromHistoryNode hash mdb filter).db.shards
          (GetDBShardIDFromTreeID hash filter.TreeID mdb.GetTotalNumDBShards)).history_node) ∧
      (∀ v ∈ victims, v.ShardID = filter.ShardID ∧ v.TreeID = filter.TreeID ∧
        v.BranchID = filter.BranchID ∧ filter.MinNodeID ≤ v.NodeID) ∧
      victims.Pairwise (fun a b =>
        a.NodeID < b.NodeID ∨ (a.NodeID = b.NodeID ∧ a.TxnID ≤ b.TxnID)) ∧
      (∀ v ∈ victims, ∀ s ∈ ((DeleteFromHistoryNode hash mdb filter).db.shards
          (GetDBShardIDFromTreeID hash filter.TreeID mdb.GetTotalNumDBShards)).history_node,
        s.ShardID = filter.ShardID → s.TreeID = filter.TreeID →
        s.BranchID = filter.BranchID → filter.MinNodeID ≤ s.NodeID →
        v.NodeID < s.NodeID ∨ (v.NodeID = s.NodeID ∧ v.TxnID ≤ s.TxnID))) ∧
    (WellRouted hash mdb → ∀ i, ∀ s ∈ (mdb.shards i).history_node,
      s.TreeID = filter.TreeID →
      i = GetDBShardIDFromTreeID hash filter.TreeID mdb.GetTotalNumDBShards) ∧
    ((SelectFromHistoryNode (fun t => t)
        (storeOfNodes (fun t => t) 4
          [⟨2, 7, 1, 1, 11, [1], "thriftrw"⟩, ⟨2, 7, 1, 2, 12, [2], "thriftrw"⟩,
           ⟨2, 7, 1, 3, 13, [3], "thriftrw"⟩])
        ⟨2, 7, 1, 1, 4, 10⟩).map (fun r => r.NodeID) = [1, 2, 3] ∧
      (DeleteFromHistoryNode (fun t => t)
        (storeOfNodes (fun t => t) 4
          [⟨2, 7, 1, 1, 11, [1], "thriftrw"⟩, ⟨2, 7, 1, 2, 12, [2], "thriftrw"⟩,
           ⟨2, 7, 1, 3, 13, [3], "thriftrw"⟩])
        ⟨2, 7, 1, 2, 0, 10⟩).result = .ok 2 ∧
      SelectFromHistoryNode (fun t => t)
        (DeleteFromHistoryNode (fun t => t)
          (storeOfNodes (fun t => t) 4
            [⟨2, 7, 1, 1, 11, [1], "thriftrw"⟩, ⟨2, 7, 1, 2, 12, [2], "thriftrw"⟩,
             ⟨2, 7, 1, 3, 13, [3], "thriftrw"⟩])
          ⟨2, 7, 1, 2, 0, 10⟩).db
        ⟨2, 7, 1, 1, 4, 10⟩ = [⟨0, 0, 0, 1, 11, [1], "thriftrw"⟩]) := by
  have hlen : (deleteHistoryNodesVictims filter.ShardID filter.TreeID filter.BranchID
      filter.MinNodeID filter.PageSize
      (mdb.shards (GetDBShardIDFromTreeID hash filter.TreeID
        mdb.GetTotalNumDBShards)).history_node).length =
      min filter.PageSize
        (((mdb.shards (GetDBShardIDFromTreeID hash filter.TreeID
          mdb.GetTotalNumDBShards)).history_node.filter
            (deleteHistoryNodesWhere filter.ShardID filter.TreeID filter.BranchID
              filter.MinNodeID)).length) := by
    unfold deleteHistoryNodesVictims
    rw [List.length_take, List.length_insertionSort]
  have hwhere : ∀ v : HistoryNodeRow,
      deleteHistoryNodesWhere filter.ShardID filter.TreeID filter.BranchID filter.MinNodeID v
        = true ↔
      (v.ShardID = filter.ShardID ∧ v.TreeID = filter.TreeID ∧
        v.BranchID = filter.BranchID ∧ filter.MinNodeID ≤ v.NodeID) := by
    intro v
    simp only [deleteHistoryNodesWhere, Bool.and_eq_true, decide_eq_true_eq, ge_iff_le]
    tauto
  refine ⟨?_, ?_, ?_, ⟨by decide, rfl, by decide⟩⟩
  · simp only [DeleteFromHistoryNode, deleteHistoryNodesQuery]
    rw [hlen]
  · refine ⟨deleteHistoryNodesVictims filter.ShardID filter.TreeID filter.BranchID
      filter.MinNodeID filter.PageSize
      (mdb.shards (GetDBShardIDFromTreeID hash filter.TreeID
        mdb.GetTotalNumDBShards)).history_node, hlen, ?_, ?_, ?_, ?_⟩
    · rw [deleteNode_shard]
      exact victims_perm _ _ _ _ _ _
    · intro v hv
      exact (hwhere v).1 (victims_where _ _ _ _ _ _ v hv)
    · have hsorted := List.sorted_insertionSort nodeOrderLe
        ((mdb.shards (GetDBShardIDFromTreeID hash filter.TreeID
          mdb.GetTotalNumDBShards)).history_node.filter
            (deleteHistoryNodesWhere filter.ShardID filter.TreeID filter.BranchID
              filter.MinNodeID))
      have hsub : List.Pairwise nodeOrderLe
          (deleteHistoryNodesVictims filter.ShardID filter.TreeID filter.BranchID
            filter.MinNodeID filter.PageSize
            (mdb.shards (GetDBShardIDFromTreeID hash filter.TreeID
              mdb.GetTotalNumDBShards)).history_node) :=
        List.Pairwise.sublist (List.take_sublist _ _) hsorted
      refine List.Pairwise.imp_of_mem ?_ hsub
      intro a b ha hb hab
      have ha2 := (hwhere a).1 (victims_where _ _ _ _ _ _ a ha)
      have hb2 := (hwhere b).1 (victims_where _ _ _ _ _ _ b hb)
      unfold nodeOrderLe at hab
      unfold UUID at *
      omega
    · intro v hv s hs h1 h2 h3 h4
      rw [deleteNode_shard] at hs
      have hab := victims_below_rest _ _ _ _ _ _ v s hv hs ((hwhere s).2 ⟨h1, h2, h3, h4⟩)
      have hv2 := (hwhere v).1 (victims_where _ _ _ _ _ _ v hv)
      unfold nodeOrderLe at hab
      unfold UUID at *
      omega
  · intro hwr i s hs ht
    exact wellRouted_node_shard hash mdb hwr i s hs _ ht

/-! ## C8: branch isolation -/

theorem deleteTree_shard (hash : UUID → Nat) (mdb : DB) (filter : HistoryTreeFilter) (i : Nat) :
    ((DeleteFromHistoryTree hash mdb filter).db.shards i).history_tree =
      if i = GetDBShardIDFromTreeID hash filter.TreeID mdb.GetTotalNumDBShards then
        (mdb.shards i).history_tree.filter
          (fun r => !deleteHistoryTreeWhere filter.ShardID filter.TreeID filter.BranchID r)
      else (mdb.shards i).history_tree := by
  by_cases hi : i = GetDBShardIDFromTreeID hash filter.TreeID mdb.GetTotalNumDBShards
  · subst hi
    simp only [DeleteFromHistoryTree, deleteHistoryTreeQuery, setShard_same, if_true]
  · simp only [DeleteFromHistoryTree, setShard_ne _ _ _ _ hi, if_neg hi]

theorem deleteTreeWhere_iff (filter : HistoryTreeFilter) (r : HistoryTreeRow) :
    deleteHistoryTreeWhere filter.ShardID filter.TreeID filter.BranchID r = true ↔
      (r.ShardID = filter.ShardID ∧ r.TreeID = filter.TreeID ∧ r.BranchID = filter.BranchID) := by
  simp only [deleteHistoryTreeWhere, Bool.and_eq_true, decide_eq_true_eq]
  tauto

/-- C8. Branch isolation: `DeleteFromHistoryTree` removes no `history_node`
record, adds or changes no `history_tree` record, keeps every branch record
whose `(shardID, treeID, branchID)` is not that of the filter, on every storage
shard and with its multiplicity, leaves no record of the deleted branch on the
shard of the tree, and `SelectFromHistoryTree` afterwards returns, for every
filter, what it returned before without the rows of the deleted branch. -/
theorem branch_isolation (hash : UUID → Nat) (mdb : DB) (filter : HistoryTreeFilter) :
    (∀ i, ((DeleteFromHistoryTree hash mdb filter).db.shards i).history_node =
      (mdb.shards i).history_node) ∧
    (∀ i, List.Sublist ((DeleteFromHistoryTree hash mdb filter).db.shards i).history_tree
      (mdb.shards i).history_tree) ∧
    (∀ i r, ¬ (r.ShardID = filter.ShardID ∧ r.TreeID = filter.TreeID ∧
        r.BranchID = filter.BranchID) →
      List.count r ((DeleteFromHistoryTree hash mdb filter).db.shards i).history_tree =
        List.count r (mdb.shards i).history_tree) ∧
    (∀ r ∈ ((DeleteFromHistoryTree hash mdb filter).db.shards
        (GetDBShardIDFromTreeID hash filter.TreeID mdb.GetTotalNumDBShards)).history_tree,
      ¬ (r.ShardID = filter.ShardID ∧ r.TreeID = filter.TreeID ∧
        r.BranchID = filter.BranchID)) ∧
    (∀ g : HistoryTreeFilter,
      SelectFromHistoryTree hash (DeleteFromHistoryTree hash mdb filter).db g =
        (SelectFromHistoryTree hash mdb g).filter (fun r =>
          !(decide (g.ShardID = filter.ShardID) && decide (g.TreeID = filter.TreeID) &&
            decide (r.BranchID = filter.BranchID)))) := by
  refine ⟨?_, ?_, ?_, ?_, ?_⟩
  · intro i
    by_cases hi : i = GetDBShardIDFromTreeID hash filter.TreeID mdb.GetTotalNumDBShards
    · subst hi
      simp only [DeleteFromHistoryTree, setShard_same]
    · simp only [DeleteFromHistoryTree, setShard_ne _ _ _ _ hi]
  · intro i
    rw [deleteTree_shard]
    split
    · exact List.filter_sublist _
    · exact List.Sublist.refl _
  · intro i r hr
    rw [deleteTree_shard]
    split
    · apply List.count_filter
      have := (deleteTreeWhere_iff filter r).not.2 hr
      simpa using this
    · rfl
  · intro r hr
    rw [deleteTree_shard, if_pos rfl] at hr
    have h2 := (List.mem_filter.1 hr).2
    intro hk
    have := (deleteTreeWhere_iff filter r).2 hk
    simp [this] at h2
  · intro g
    simp only [SelectFromHistoryTree, getHistoryTreeQuery]
    have hN : (DeleteFromHistoryTree hash mdb filter).db.GetTotalNumDBShards =
        mdb.GetTotalNumDBShards := rfl
    rw [hN, deleteTree_shard, List.filter_map]
    congr 1
    split
    · rw [List.filter_filter, List.filter_filter]
      apply List.filter_congr
      intro r _
      simp only [Function.comp, scanHistoryTree, deleteHistoryTreeWhere]
      by_cases h1 : r.ShardID = g.ShardID <;> by_cases h2 : r.TreeID = g.TreeID <;>
        simp [h1, h2]
    · rename_i hne
      rw [List.filter_filter]
      apply List.filter_congr
      intro r _
      have hg : g.TreeID ≠ filter.TreeID := by
        intro h
        apply hne
        rw [h]
      simp [Function.comp, hg]

/-! ## C9: the enumeration of all branches -/

theorem treeKey_lt_iff (s1 s2 : Int) (t1 b1 t2 b2 : UUID) :
    treeKey s1 t1 b1 < treeKey s2 t2 b2 ↔
      s1 < s2 ∨ (s1 = s2 ∧ (t1 < t2 ∨ (t1 = t2 ∧ b1 < b2))) := by
  simp only [treeKey, Prod.Lex.lt_iff]

theorem treeKey_le_iff (s1 s2 : Int) (t1 b1 t2 b2 : UUID) :
    treeKey s1 t1 b1 ≤ treeKey s2 t2 b2 ↔
      s1 < s2 ∨ (s1 = s2 ∧ (t1 < t2 ∨ (t1 = t2 ∧ b1 ≤ b2))) := by
  simp only [treeKey, Prod.Lex.le_iff]

theorem getAllWhere_iff (filter : HistoryTreeFilter) (r : HistoryTreeRow) :
    getAllHistoryTreeWhere filter.ShardID filter.TreeID filter.BranchID filter.ShardID
        filter.TreeID filter.ShardID r = true ↔
      treeKey filter.ShardID filter.TreeID filter.BranchID <
        treeKey r.ShardID r.TreeID r.BranchID := by
  rw [treeKey_lt_iff]
  simp only [getAllHistoryTreeWhere, Bool.or_eq_true, Bool.and_eq_true, decide_eq_true_eq,
    gt_iff_lt]
  unfold UUID at *
  omega

theorem treeOrderLe_iff (a b : HistoryTreeRow) :
    treeOrderLe a b ↔
      treeKey a.ShardID a.TreeID a.BranchID ≤ treeKey b.ShardID b.TreeID b.BranchID := by
  rw [treeKey_le_iff]
  rfl

/-- C9, as amended. `GetAllHistoryTreeBranches` is an ordered keyset scan of the
one storage shard its statement is issued to, that of the tree of the cursor:
the three-clause predicate is the strict lexicographic comparison of
`(shardID, treeID, branchID)` with the cursor, and the method returns, in
ascending key order, the first `PageSize` branch records among the records of
that storage shard whose key is greater than the cursor, skipping none of
them; with a single storage shard that shard is shard 0, the whole store. -/
theorem enumerate_scans_routed_shard (hash : UUID → Nat) (mdb : DB)
    (filter : HistoryTreeFilter) :
    (∀ r : HistoryTreeRow,
      getAllHistoryTreeWhere filter.ShardID filter.TreeID filter.BranchID filter.ShardID
          filter.TreeID filter.ShardID r = true ↔
        treeKey filter.ShardID filter.TreeID filter.BranchID <
          treeKey r.ShardID r.TreeID r.BranchID) ∧
    (GetAllHistoryTreeBranches hash mdb filter).length ≤ filter.PageSize ∧
    (GetAllHistoryTreeBranches hash mdb filter).Pairwise (fun a b =>
      treeKey a.ShardID a.TreeID a.BranchID ≤ treeKey b.ShardID b.TreeID b.BranchID) ∧
    (∀ r ∈ GetAllHistoryTreeBranches hash mdb filter,
      r ∈ (mdb.shards (GetDBShardIDFromTreeID hash filter.TreeID
        mdb.GetTotalNumDBShards)).history_tree ∧
      treeKey filter.ShardID filter.TreeID filter.BranchID <
        treeKey r.ShardID r.TreeID r.BranchID) ∧
    (∀ s ∈ (mdb.shards (GetDBShardIDFromTreeID hash filter.TreeID
        mdb.GetTotalNumDBShards)).history_tree,
      treeKey filter.ShardID filter.TreeID filter.BranchID <
          treeKey s.ShardID s.TreeID s.BranchID →
        s ∈ GetAllHistoryTreeBranches hash mdb filter ∨
        ((GetAllHistoryTreeBranches hash mdb filter).length = filter.PageSize ∧
          ∀ r ∈ GetAllHistoryTreeBranches hash mdb filter,
            treeKey r.ShardID r.TreeID r.BranchID ≤ treeKey s.ShardID s.TreeID s.BranchID)) ∧
    (mdb.GetTotalNumDBShards = 1 →
      GetDBShardIDFromTreeID hash filter.TreeID mdb.GetTotalNumDBShards = 0) := by
  refine ⟨getAllWhere_iff filter, ?_, ?_, ?_, ?_, ?_⟩
  · simp only [GetAllHistoryTreeBranches, getAllHistoryTreeQuery, List.length_take]
    exact Nat.min_le_left _ _
  · simp only [GetAllHistoryTreeBranches, getAllHistoryTreeQuery]
    apply List.Pairwise.sublist (List.take_sublist _ _)
    refine List.Pairwise.imp ?_ (List.sorted_insertionSort treeOrderLe _)
    intro a b hab
    exact (treeOrderLe_iff a b).1 hab
  · intro r hr
    simp only [GetAllHistoryTreeBranches, getAllHistoryTreeQuery] at hr
    have h2 := List.mem_filter.1 ((List.mem_insertionSort _).1 (List.mem_of_mem_take hr))
    exact ⟨h2.1, (getAllWhere_iff filter r).1 h2.2⟩
  · intro s hs hlt
    simp only [GetAllHistoryTreeBranches, getAllHistoryTreeQuery]
    have hmem : s ∈ ((mdb.shards (GetDBShardIDFromTreeID hash filter.TreeID
        mdb.GetTotalNumDBShards)).history_tree.filter
          (getAllHistoryTreeWhere filter.ShardID filter.TreeID filter.BranchID filter.ShardID
            filter.TreeID filter.ShardID)).insertionSort treeOrderLe :=
      (List.mem_insertionSort _).2 (List.mem_filter.2 ⟨hs, (getAllWhere_iff filter s).2 hlt⟩)
    have hsorted := List.sorted_insertionSort treeOrderLe
      ((mdb.shards (GetDBShardIDFromTreeID hash filter.TreeID
        mdb.GetTotalNumDBShards)).history_tree.filter
          (getAllHistoryTreeWhere filter.ShardID filter.TreeID filter.BranchID filter.ShardID
            filter.TreeID filter.ShardID))
    generalize ((mdb.shards (GetDBShardIDFromTreeID hash filter.TreeID
        mdb.GetTotalNumDBShards)).history_tree.filter
          (getAllHistoryTreeWhere filter.ShardID filter.TreeID filter.BranchID filter.ShardID
            filter.TreeID filter.ShardID)).insertionSort treeOrderLe = l at hmem hsorted ⊢
    rw [← List.take_append_drop filter.PageSize l, List.mem_append] at hmem
    rcases hmem with hmem | hmem
    · exact Or.inl hmem
    · right
      have hlen : filter.PageSize < l.length := by
        by_contra hc
        rw [List.drop_of_length_le (by omega)] at hmem
        simp at hmem
      refine ⟨by rw [List.length_take]; omega, ?_⟩
      intro r hr
      rw [← List.take_append_drop filter.PageSize l] at hsorted
      exact (treeOrderLe_iff r s).1 ((List.pairwise_append.1 hsorted).2.2 r hr s hmem)
  · intro h1
    simp only [GetDBShardIDFromTreeID, h1, Nat.mod_one]

/-- C9, counterexample. In a store of two storage shards with one branch of
tree 2 on shard 0 and one branch of tree 3 on shard 1, the scan from the cursor
`(0, 0, 0)` with page size 10 returns the branch of tree 2 alone: the branch of
tree 3, whose key is greater than the cursor, is skipped. -/
theorem enumerate_skips_other_shards :
    (storeOfTrees (fun t => t) 2
      [⟨0, 2, 1, [2], "thriftrw"⟩, ⟨0, 3, 1, [3], "thriftrw"⟩]).shards 0 =
        ⟨[], [⟨0, 2, 1, [2], "thriftrw"⟩]⟩ ∧
    (storeOfTrees (fun t => t) 2
      [⟨0, 2, 1, [2], "thriftrw"⟩, ⟨0, 3, 1, [3], "thriftrw"⟩]).shards 1 =
        ⟨[], [⟨0, 3, 1, [3], "thriftrw"⟩]⟩ ∧
    treeKey 0 0 0 < treeKey 0 3 1 ∧
    GetAllHistoryTreeBranches (fun t => t)
      (storeOfTrees (fun t => t) 2
        [⟨0, 2, 1, [2], "thriftrw"⟩, ⟨0, 3, 1, [3], "thriftrw"⟩])
      ⟨0, 0, 0, 10⟩ = [⟨0, 2, 1, [2], "thriftrw"⟩] ∧
    (⟨0, 3, 1, [3], "thriftrw"⟩ : HistoryTreeRow) ∉
      GetAllHistoryTreeBranches (fun t => t)
        (storeOfTrees (fun t => t) 2
          [⟨0, 2, 1, [2], "thriftrw"⟩, ⟨0, 3, 1, [3], "thriftrw"⟩])
        ⟨0, 0, 0, 10⟩ := by
  refine ⟨by decide, by decide, ?_, by decide, by decide⟩
  rw [treeKey_lt_iff]
  decide

/-! ## C10: paging through the DLQ -/

theorem dlqRange_token (dlq : List DLQEntry) (shardID : Int)
    (request : GetReplicationTasksFromDLQRequest) (token : List Nat) :
    dlqRange dlq shardID { request with NextPageToken := token } = dlqRange dlq shardID request :=
  rfl

theorem dlqRange_perm (dlq : List DLQEntry) (shardID : Int)
    (request : GetReplicationTasksFromDLQRequest) :
    List.Perm (dlqRange dlq shardID request) (dlq.filter (dlqInRange shardID request)) :=
  List.perm_insertionSort _ _

theorem dlqRange_sorted (dlq : List DLQEntry) (shardID : Int)
    (request : GetReplicationTasksFromDLQRequest) :
    (dlqRange dlq shardID request).Pairwise (fun a b => a.OrderingKey ≤ b.OrderingKey) := by
  haveI : IsTotal DLQEntry (fun a b => a.OrderingKey ≤ b.OrderingKey) :=
    ⟨fun _ _ => Int.le_total _ _⟩
  haveI : IsTrans DLQEntry (fun a b => a.OrderingKey ≤ b.OrderingKey) :=
    ⟨fun _ _ _ h1 h2 => Int.le_trans h1 h2⟩
  exact List.sorted_insertionSort (fun a b : DLQEntry => a.OrderingKey ≤ b.OrderingKey) _

theorem readDLQPages_from (dlq : List DLQEntry) (shardID : Int)
    (request : GetReplicationTasksFromDLQRequest) (hsize : 1 ≤ request.BatchSize) :
    ∀ (fuel : Nat) (token : List Nat) (acc : List DLQEntry),
      ((dlqRange dlq shardID request).drop (returnedBefore token)).length < fuel →
      readDLQPages dlq shardID request fuel token acc =
        some (acc ++ (dlqRange dlq shardID request).drop (returnedBefore token)) := by
  intro fuel
  induction fuel with
  | zero => intro token acc h; omega
  | succ n ih =>
    intro token acc hlen
    rw [readDLQPages]
    simp only [GetReplicationTasksFromDLQ, dlqRange_token]
    generalize hr : (dlqRange dlq shardID request).drop (returnedBefore token) = r at hlen ⊢
    cases hd : r.drop request.BatchSize with
    | nil =>
      have htake : r.take request.BatchSize = r := by
        have := List.take_append_drop request.BatchSize r
        rw [hd, List.append_nil] at this
        exact this
      simp [htake]
    | cons e b =>
      have hdd : (dlqRange dlq shardID request).drop
          (returnedBefore [returnedBefore token + request.BatchSize]) = e :: b := by
        show (dlqRange dlq shardID request).drop (returnedBefore token + request.BatchSize) =
          e :: b
        rw [← hd, ← hr, List.drop_drop, Nat.add_comm]
      have hlen2 : ((dlqRange dlq shardID request).drop
          (returnedBefore [returnedBefore token + request.BatchSize])).length < n := by
        rw [hdd]
        have h1 : (r.drop request.BatchSize).length = r.length - request.BatchSize :=
          List.length_drop _ _
        rw [hd] at h1
        have h2 : 0 < (e :: b).length := by simp
        omega
      have := ih [returnedBefore token + request.BatchSize] (acc ++ r.take request.BatchSize)
        hlen2
      simp only [List.length_singleton, gt_iff_lt, Nat.zero_lt_one, if_true]
      rw [this, hdd, ← hd, List.append_assoc, List.take_append_drop]

theorem versions_addOrUpdateItem (items : List VersionHistoryItem) (e : HistoryEvent)
    (hi : ∀ i ∈ items, i.Version ≠ 2) (he : e.Version ≠ 2) :
    ∀ i ∈ addOrUpdateItem items e, i.Version ≠ 2 := by
  intro i hmem
  unfold addOrUpdateItem at hmem
  split at hmem
  · split at hmem
    · rcases List.mem_append.1 hmem with h | h
      · exact hi i (List.mem_of_mem_dropLast h)
      · rw [List.mem_singleton] at h; subst h; exact he
    · rcases List.mem_append.1 hmem with h | h
      · exact hi i h
      · rw [List.mem_singleton] at h; subst h; exact he
  · rw [List.mem_singleton] at hmem; subst hmem; exact he

theorem versions_foldl (events : List HistoryEvent) :
    ∀ items : List VersionHistoryItem, (∀ i ∈ items, i.Version ≠ 2) →
      (∀ e ∈ events, e.Version ≠ 2) →
      ∀ i ∈ events.foldl addOrUpdateItem items, i.Version ≠ 2 := by
  induction events with
  | nil => intro items hi _; exact hi
  | cons e es ih =>
    intro items hi he
    rw [List.foldl_cons]
    exact ih _ (versions_addOrUpdateItem items e hi (he e (List.mem_cons_self _ _)))
      (fun e2 h2 => he e2 (List.mem_cons_of_mem _ h2))

theorem versionOfEvent_ne (items : List VersionHistoryItem) (eventID : Int)
    (hi : ∀ i ∈ items, i.Version ≠ 2) : versionOfEvent items eventID ≠ some 2 := by
  unfold versionOfEvent
  cases hf : items.find? (fun i => decide (eventID ≤ i.EventID)) with
  | none => simp
  | some i =>
    simp only [Option.map_some', ne_eq, Option.some.injEq]
    exact hi i (List.mem_of_find?_eq_some hf)

theorem test_eq (ids : Nat → Int × Int) (e0 e1 : HistoryEvent) (es : List HistoryEvent)
    (fuel : Nat) (hlo : 0 ≤ (ids 0).2) (hhi : (ids 0).2 < maxInt64) (hfuel : 2 ≤ fuel) :
    TestReplicationMessageDLQ ids (e0 :: e1 :: es) fuel =
      some ({e0.ID},
        if consistentWith (eventBatchesToVersionHistory [] [⟨e0 :: e1 :: es⟩])
            (e0 :: { e1 with Version := 2 } :: es) = true then ∅
        else {e0.ID}) := by
  have hsize : 1 ≤ (⟨"standby", 0, maxInt64, 9223372036854775807, []⟩ :
      GetReplicationTasksFromDLQRequest).BatchSize := by decide
  simp only [TestReplicationMessageDLQ, setSecondEventVersion, applyEventsThroughFetcher,
    replicationTasks, expectedDLQMsgs, Option.map_some', List.foldl_cons, List.foldl_nil,
    applyReplicationTask]
  by_cases hc : consistentWith (eventBatchesToVersionHistory [] [⟨e0 :: e1 :: es⟩])
      (e0 :: { e1 with Version := 2 } :: es) = true
  · simp only [if_pos hc]
    have hpages := readDLQPages_from [] 0 ⟨"standby", 0, maxInt64, 9223372036854775807, []⟩
      hsize fuel [] [] (by simp [dlqRange, returnedBefore]; omega)
    rw [hpages]
    simp [dlqRange, returnedBefore, firstEventIDs]
  · simp only [if_neg hc]
    have hrange : dlqRange
        ([] ++ [⟨"standby", 0, (ids 0).1, (ids 0).2,
          ⟨e0.ID, ((List.getLast? ({ e1 with Version := 2 } :: es)).getD e0).ID + 1,
            e0 :: { e1 with Version := 2 } :: es⟩⟩])
        0 ⟨"standby", 0, maxInt64, 9223372036854775807, []⟩ =
        [⟨"standby", 0, (ids 0).1, (ids 0).2,
          ⟨e0.ID, ((List.getLast? ({ e1 with Version := 2 } :: es)).getD e0).ID + 1,
            e0 :: { e1 with Version := 2 } :: es⟩⟩] := by
      simp [dlqRange, dlqInRange, hlo, hhi]
    have hpages := readDLQPages_from
      ([] ++ [⟨"standby", 0, (ids 0).1, (ids 0).2,
          ⟨e0.ID, ((List.getLast? ({ e1 with Version := 2 } :: es)).getD e0).ID + 1,
            e0 :: { e1 with Version := 2 } :: es⟩⟩])
      0 ⟨"standby", 0, maxInt64, 9223372036854775807, []⟩
      hsize fuel [] [] (by rw [hrange]; simp [returnedBefore]; omega)
    rw [hpages, hrange]
    simp [returnedBefore, firstEventIDs]

theorem inconsistent_of_versions (e0 e1 : HistoryEvent) (es : List HistoryEvent)
    (hv : ∀ e ∈ e0 :: e1 :: es, e.Version ≠ 2) :
    consistentWith (eventBatchesToVersionHistory [] [⟨e0 :: e1 :: es⟩])
      (e0 :: { e1 with Version := 2 } :: es) = false := by
  have hitems : ∀ i ∈ eventBatchesToVersionHistory [] [⟨e0 :: e1 :: es⟩], i.Version ≠ 2 := by
    simp only [eventBatchesToVersionHistory, List.foldl_cons, List.foldl_nil]
    exact versions_foldl (e0 :: e1 :: es) [] (by simp) hv
  have hne := versionOfEvent_ne _ e1.ID hitems
  simp only [consistentWith, List.all_cons, Bool.and_eq_false_imp, decide_eq_true_eq]
  intro _ h2
  exact absurd h2 hne

/-- C10. DLQ completeness. First, for every DLQ content, every request and
every page size of at least 1, the paging loop of the test, started without a
token and following each returned token until it is empty, ends (given more
rounds than there are entries) with exactly the entries of the requested source
cluster, shard and range: a permutation of them, so each once and none omitted,
in ordering-key order. Second, in the test: for every batch of at least two
events the generator hands out, and ordering keys inside the range the test
reads, the set of first event IDs read from the DLQ is the set of first event
IDs of the batches whose version metadata is inconsistent with the version
history; and when no generated event has version 2, the batch whose second
event was given version 2 is such a batch and the two maps the test compares
are equal. -/
theorem dlq_paging_complete (dlq : List DLQEntry) (shardID : Int)
    (request : GetReplicationTasksFromDLQRequest) (fuel : Nat)
    (hsize : 1 ≤ request.BatchSize)
    (hfuel : (dlq.filter (dlqInRange shardID request)).length < fuel) :
    (∃ tasks, readDLQPages dlq shardID request fuel [] [] = some tasks ∧
      List.Perm tasks (dlq.filter (dlqInRange shardID request)) ∧
      tasks.length = (dlq.filter (dlqInRange shardID request)).length ∧
      tasks.Pairwise (fun a b => a.OrderingKey ≤ b.OrderingKey) ∧
      firstEventIDs tasks = firstEventIDs (dlq.filter (dlqInRange shardID request))) ∧
    (∀ (ids : Nat → Int × Int) (e0 e1 : HistoryEvent) (es : List HistoryEvent) (rounds : Nat),
      0 ≤ (ids 0).2 → (ids 0).2 < maxInt64 → 2 ≤ rounds →
        TestReplicationMessageDLQ ids (e0 :: e1 :: es) rounds =
          some ({e0.ID},
            inconsistentFirstEventIDs (eventBatchesToVersionHistory [] [⟨e0 :: e1 :: es⟩])
              [⟨e0 :: { e1 with Version := 2 } :: es⟩]) ∧
        ((∀ e ∈ e0 :: e1 :: es, e.Version ≠ 2) →
          consistentWith (eventBatchesToVersionHistory [] [⟨e0 :: e1 :: es⟩])
            (e0 :: { e1 with Version := 2 } :: es) = false ∧
          TestReplicationMessageDLQ ids (e0 :: e1 :: es) rounds =
            some ({e0.ID}, {e0.ID}))) := by
  have hperm := dlqRange_perm dlq shardID request
  refine ⟨⟨dlqRange dlq shardID request, ?_, hperm, hperm.length_eq,
    dlqRange_sorted dlq shardID request, ?_⟩, ?_⟩
  · have := readDLQPages_from dlq shardID request hsize fuel [] []
      (by simp only [returnedBefore, List.drop_zero]; rw [hperm.length_eq]; exact hfuel)
    simpa [returnedBefore] using this
  · unfold firstEventIDs
    ext x
    simp only [List.mem_toFinset, List.mem_map]
    constructor
    · rintro ⟨t, ht, rfl⟩
      exact ⟨t, hperm.subset ht, rfl⟩
    · rintro ⟨t, ht, rfl⟩
      exact ⟨t, hperm.symm.subset ht, rfl⟩
  · intro ids e0 e1 es rounds hlo hhi hrounds
    have htest := test_eq ids e0 e1 es rounds hlo hhi hrounds
    refine ⟨?_, ?_⟩
    · rw [htest]
      by_cases hc : consistentWith (eventBatchesToVersionHistory [] [⟨e0 :: e1 :: es⟩])
          (e0 :: { e1 with Version := 2 } :: es) = true
      · simp [inconsistentFirstEventIDs, hc]
      · simp [inconsistentFirstEventIDs, hc]
    · intro hv
      have hinc := inconsistent_of_versions e0 e1 es hv
      refine ⟨hinc, ?_⟩
      rw [htest, hinc]
      simp

/-- C10, witness: three quarantined tasks of cluster `standby` on shard 0, two
of them under one ordering key, next to an entry of another cluster, read with
the range of the test in pages of two; and the test on a batch of three events
of version 1. -/
theorem dlq_paging_complete_witness :
    (1 ≤ 2 ∧ 3 < 5) ∧
    (∃ tasks,
      readDLQPages
        [⟨"standby", 0, 1, 5, ⟨4, 6, []⟩⟩, ⟨"active", 0, 2, 2, ⟨9, 10, []⟩⟩,
          ⟨"standby", 0, 3, 5, ⟨1, 3, []⟩⟩, ⟨"standby", 0, 4, 3, ⟨7, 8, []⟩⟩]
        0 ⟨"standby", 0, maxInt64, 2, []⟩ 5 [] [] = some tasks ∧
      List.Perm tasks
        (([⟨"standby", 0, 1, 5, ⟨4, 6, []⟩⟩, ⟨"active", 0, 2, 2, ⟨9, 10, []⟩⟩,
            ⟨"standby", 0, 3, 5, ⟨1, 3, []⟩⟩, ⟨"standby", 0, 4, 3, ⟨7, 8, []⟩⟩] :
          List DLQEntry).filter (dlqInRange 0 ⟨"standby", 0, maxInt64, 2, []⟩))) ∧
    readDLQPages
      [⟨"standby", 0, 1, 5, ⟨4, 6, []⟩⟩, ⟨"active", 0, 2, 2, ⟨9, 10, []⟩⟩,
        ⟨"standby", 0, 3, 5, ⟨1, 3, []⟩⟩, ⟨"standby", 0, 4, 3, ⟨7, 8, []⟩⟩]
      0 ⟨"standby", 0, maxInt64, 2, []⟩ 5 [] [] =
      some [⟨"standby", 0, 4, 3, ⟨7, 8, []⟩⟩, ⟨"standby", 0, 1, 5, ⟨4, 6, []⟩⟩,
        ⟨"standby", 0, 3, 5, ⟨1, 3, []⟩⟩] ∧
    TestReplicationMessageDLQ (fun _ => (1, 1)) [⟨1, 1⟩, ⟨2, 1⟩, ⟨3, 1⟩] 2 =
      some ({1}, {1}) :=
  ⟨by decide,
    match dlq_paging_complete
      [⟨"standby", 0, 1, 5, ⟨4, 6, []⟩⟩, ⟨"active", 0, 2, 2, ⟨9, 10, []⟩⟩,
        ⟨"standby", 0, 3, 5, ⟨1, 3, []⟩⟩, ⟨"standby", 0, 4, 3, ⟨7, 8, []⟩⟩]
      0 ⟨"standby", 0, maxInt64, 2, []⟩ 5 (by decide) (by decide) with
    | ⟨⟨tasks, h1, h2, _⟩, _⟩ => ⟨tasks, h1, h2⟩,
    by decide,
    ((dlq_paging_complete [] 0 ⟨"standby", 0, maxInt64, 2, []⟩ 5 (by decide) (by decide)).2
      (fun _ => (1, 1)) ⟨1, 1⟩ ⟨2, 1⟩ [⟨3, 1⟩] 2 (by decide) (by decide) (by decide)).2
      (by decide) |>.2⟩

end Cadence
